import Mathlib

/-!
Shallow embedding of the Klondike winnability solver from
`src/src/solitaire/solitaire.c` (types from `src/include/solitaire.h` and
`src/include/core.h`), together with proofs about the solver.

Conventions of the embedding:
* C `Stack` arrays (`cards[MAX_DRAW_STACK]` + `count`) become `List Card`,
  index 0 = array index 0 (bottom); the C "top" (`cards[count-1]`) is the
  last list element.
* The seven table columns and four foundations become functions out of
  `Fin 7` / `Fin 4`.
* C `int` values that can be negative (rank values via `atoi`) become `Int`;
  unsigned 64-bit arithmetic becomes `Nat` arithmetic reduced `% 2^64`.
* Stateful code is translated by explicit state passing: the solver's
  global node counter and transposition table are threaded through the
  search, and a second, memory-level translation makes the heap snapshot
  array and the caller board explicit for the frame claims.
-/

/-- Model of the C `Card` struct from `core.h`: suit and rank strings, the
`revealed` flag used by solitaire, and the `is_joker` flag (unused here). -/
structure Card where
  suit : String
  rank : String
  revealed : Bool
  is_joker : Bool
  deriving DecidableEq, Repr

/-- Placeholder card used to total out-of-range list reads; all C reads
modelled with it are guarded in range, so it never influences results. -/
def defaultCard : Card := ⟨"", "", false, false⟩

/-- Digit-accumulating loop of `atoi`: consume decimal digits, stop at the
first non-digit. -/
def c_atoi_digits : List Char → Nat → Nat
  | [], acc => acc
  | ch :: rest, acc =>
    if ch.isDigit then c_atoi_digits rest (acc * 10 + (ch.toNat - 48)) else acc

/-- Model of C `atoi`: skip leading whitespace, optional sign, then decimal
digits (0 when no digits are present). -/
def c_atoi (s : String) : Int :=
  let cs := s.data.dropWhile (fun ch =>
    ch = ' ' ∨ ch = '\t' ∨ ch = '\n' ∨ ch = '\x0B' ∨ ch = '\x0C' ∨ ch = '\r')
  match cs with
  | '-' :: rest => -(c_atoi_digits rest 0 : Int)
  | '+' :: rest => (c_atoi_digits rest 0 : Int)
  | _ => (c_atoi_digits cs 0 : Int)

/-- `is_red_suit` (solitaire.c:751): Hearts and Diamonds are red. -/
def is_red_suit (card : Card) : Bool :=
  card.suit == "Hearts" || card.suit == "Diamonds"

/-- `get_card_rank_value` (solitaire.c:787): named ranks map to
1/11/12/13, everything else through `atoi`. -/
def get_card_rank_value (card : Card) : Int :=
  if card.rank = "Ace" then 1
  else if card.rank = "Jack" then 11
  else if card.rank = "Queen" then 12
  else if card.rank = "King" then 13
  else c_atoi card.rank

/-- Rank valuation inlined in `is_legal_foundation_placement`
(solitaire.c:763-768): `atoi` first, then overridden for named ranks. -/
def foundation_rank_value (r : String) : Int :=
  let v := c_atoi r
  if r = "Ace" then 1
  else if r = "Jack" then 11
  else if r = "Queen" then 12
  else if r = "King" then 13
  else v

/-- `is_legal_foundation_placement` (solitaire.c:761): an Ace on an empty
foundation, or same suit and exactly one rank above the current top. -/
def is_legal_foundation_placement (candidateCard : Card) (foundationStack : List Card) : Bool :=
  let candidateValue := foundation_rank_value candidateCard.rank
  match foundationStack.getLast? with
  | none => candidateValue == 1
  | some topFoundationCard =>
    candidateCard.suit == topFoundationCard.suit &&
      candidateValue == foundation_rank_value topFoundationCard.rank + 1

/-- `is_legal_table_placement` (solitaire.c:801): alternating colors and
rank descending by exactly one. -/
def is_legal_table_placement (movingCard destinationCard : Card) : Bool :=
  (is_red_suit movingCard != is_red_suit destinationCard) &&
    (get_card_rank_value movingCard == get_card_rank_value destinationCard - 1)

/-- Model of the C `KlondikeGame` struct (solitaire.h:77-85): seven table
columns, draw (stock) pile, waste pile, four foundations, difficulty and
the undo flag. -/
structure KlondikeGame where
  table : Fin 7 → List Card
  drawPile : List Card
  wastePile : List Card
  foundation : Fin 4 → List Card
  difficulty : Int
  undo : Bool

instance : DecidableEq KlondikeGame := fun a b =>
  if h : a.table = b.table ∧ a.drawPile = b.drawPile ∧ a.wastePile = b.wastePile ∧
      a.foundation = b.foundation ∧ a.difficulty = b.difficulty ∧ a.undo = b.undo then
    isTrue (by
      obtain ⟨h1, h2, h3, h4, h5, h6⟩ := h
      cases a; cases b; simp_all)
  else
    isFalse (by
      intro he
      cases he
      exact h ⟨rfl, rfl, rfl, rfl, rfl, rfl⟩)

/-- Difficulty constant `DIFFICULTY_EASY` (solitaire.h:37). -/
def DIFFICULTY_EASY : Int := 1

/-- Difficulty constant `DIFFICULTY_NORMAL` (solitaire.h:38). -/
def DIFFICULTY_NORMAL : Int := 2

/-- Difficulty constant `DIFFICULTY_HARD` (solitaire.h:39). -/
def DIFFICULTY_HARD : Int := 3

/-- Depth cap `DFS_MAX_DEPTH` (solitaire.h:92). -/
def DFS_MAX_DEPTH : Nat := 512

/-- Transposition-table capacity `VISITED_CAP` (solitaire.h:95). -/
def VISITED_CAP : Nat := 200003

/-- Node-visit ceiling `DFS_NODE_LIMIT` (solitaire.h:98). -/
def DFS_NODE_LIMIT : Nat := 2000000

/-- `is_goal_state` (solitaire.c:1441): count the foundations holding
exactly 13 cards; the goal is reached when all four are complete. -/
def is_goal_state (gameState : KlondikeGame) : Bool :=
  ((List.finRange 4).foldl
    (fun completeCount foundationIndex =>
      if (gameState.foundation foundationIndex).length = 13 then completeCount + 1
      else completeCount) 0) == 4

/-- `max_foundation_rank_by_color` (solitaire.c:1462): highest rank on red
foundations and on black foundations, as a pair `(maxRed, maxBlack)`. -/
def max_foundation_rank_by_color (gameState : KlondikeGame) : Int × Int :=
  (List.finRange 4).foldl
    (fun acc foundationIndex =>
      match (gameState.foundation foundationIndex).getLast? with
      | none => acc
      | some topFoundationCard =>
        let rankValue := get_card_rank_value topFoundationCard
        if is_red_suit topFoundationCard then
          (if acc.1 < rankValue then (rankValue, acc.2) else acc)
        else
          (if acc.2 < rankValue then (acc.1, rankValue) else acc))
    (0, 0)

/-- `is_safe_foundation_push` (solitaire.c:1496): rank value at most 2 is
always safe; higher values require the opposite-color foundation maximum
to reach value − 1. -/
def is_safe_foundation_push (candidateCard : Card) (gameState : KlondikeGame) : Bool :=
  let rankValue := get_card_rank_value candidateCard
  if rankValue ≤ 2 then true
  else
    let maxes := max_foundation_rank_by_color gameState
    if is_red_suit candidateCard then decide (rankValue - 1 ≤ maxes.2)
    else decide (rankValue - 1 ≤ maxes.1)

/-- `reveal_new_table_top_card` (solitaire.c:1388) viewed as a list
operation: flip the revealed flag of the last card, if any. -/
def reveal_last (l : List Card) : List Card :=
  match l.getLast? with
  | none => l
  | some c => l.dropLast ++ [{ c with revealed := true }]

/-- Safe table-top-to-foundation push as performed both by
`apply_forced_moves` (solitaire.c:1686-1692) and by move family 1 of
`dfs_search_inner` (solitaire.c:1781-1787): append the top card to
foundation `f`, drop it from column `col`, reveal the new column top. -/
def push_table_to_foundation (s : KlondikeGame) (col : Fin 7) (f : Fin 4)
    (topTableCard : Card) : KlondikeGame :=
  { s with
    foundation := Function.update s.foundation f (s.foundation f ++ [topTableCard]),
    table := Function.update s.table col (reveal_last ((s.table col).dropLast)) }

/-- Waste-to-foundation push as performed both by `apply_forced_moves`
(solitaire.c:1711-1712) and by move family 2 of `dfs_search_inner`
(solitaire.c:1804-1809). -/
def push_waste_to_foundation (s : KlondikeGame) (f : Fin 4)
    (wasteTopCard : Card) : KlondikeGame :=
  { s with
    foundation := Function.update s.foundation f (s.foundation f ++ [wasteTopCard]),
    wastePile := s.wastePile.dropLast }

/-- One column step of the table scan inside a pass of
`apply_forced_moves` (solitaire.c:1674-1699): if the column top is
revealed and some foundation (first index wins) accepts it safely, push
it; otherwise leave the state alone. -/
def table_forced_step (acc : KlondikeGame × Bool) (tableColumnIndex : Fin 7) :
    KlondikeGame × Bool :=
  match (acc.1.table tableColumnIndex).getLast? with
  | none => acc
  | some topTableCard =>
    if topTableCard.revealed then
      match (List.finRange 4).find? (fun foundationIndex =>
          is_legal_foundation_placement topTableCard (acc.1.foundation foundationIndex) &&
          is_safe_foundation_push topTableCard acc.1) with
      | some foundationIndex =>
        (push_table_to_foundation acc.1 tableColumnIndex foundationIndex topTableCard, true)
      | none => acc
    else acc

/-- One `do … while` pass of `apply_forced_moves` (solitaire.c:1669-1721):
scan the seven columns (each may push), then try the waste top only when no
column pushed.  The boolean is `changedThisPass`. -/
def forced_pass (gameState : KlondikeGame) : KlondikeGame × Bool :=
  match (List.finRange 7).foldl table_forced_step (gameState, false) with
  | (s1, true) => (s1, true)
  | (s1, false) =>
    match s1.wastePile.getLast? with
    | none => (s1, false)
    | some wasteTopCard =>
      match (List.finRange 4).find? (fun foundationIndex =>
          is_legal_foundation_placement wasteTopCard (s1.foundation foundationIndex) &&
          is_safe_foundation_push wasteTopCard s1) with
      | some foundationIndex => (push_waste_to_foundation s1 foundationIndex wasteTopCard, true)
      | none => (s1, false)

/-- Termination measure for the collapse loop: number of cards on the
table plus the waste; every pass that reports a change moved at least one
such card to a foundation. -/
def numTW (s : KlondikeGame) : Nat :=
  (∑ i : Fin 7, (s.table i).length) + s.wastePile.length

lemma length_pos_of_getLast?_eq_some {l : List Card} {c : Card}
    (h : l.getLast? = some c) : 0 < l.length := by
  cases l with
  | nil => simp at h
  | cons a t => simp

lemma reveal_last_length (l : List Card) : (reveal_last l).length = l.length := by
  unfold reveal_last
  rcases h : l.getLast? with _ | c
  · rfl
  · have := length_pos_of_getLast?_eq_some h
    simp [List.length_dropLast]
    omega

lemma sum_update_length (g : Fin 7 → List Card) (j : Fin 7) (v : List Card) :
    (∑ i : Fin 7, (Function.update g j v i).length) + (g j).length
      = (∑ i : Fin 7, (g i).length) + v.length := by
  have h1 : ∀ i, (Function.update g j v i).length
      = Function.update (fun k => (g k).length) j v.length i := by
    intro i
    exact (Function.apply_update (fun _ l => List.length l) g j v i)
  calc (∑ i : Fin 7, (Function.update g j v i).length) + (g j).length
      = (∑ i : Fin 7, Function.update (fun k => (g k).length) j v.length i) + (g j).length := by
        rw [Finset.sum_congr rfl (fun i _ => h1 i)]
    _ = (v.length + ∑ i in Finset.univ \ {j}, (g i).length) + (g j).length := by
        rw [Finset.sum_update_of_mem (Finset.mem_univ j)]
    _ = (∑ i : Fin 7, (g i).length) + v.length := by
        rw [Finset.sum_eq_sum_diff_singleton_add (Finset.mem_univ j) (fun i => (g i).length)]
        ring

lemma numTW_push_table (s : KlondikeGame) (col : Fin 7) (f : Fin 4) (c : Card)
    (h : 0 < (s.table col).length) :
    numTW (push_table_to_foundation s col f c) + 1 = numTW s := by
  unfold numTW push_table_to_foundation
  have hs := sum_update_length s.table col (reveal_last ((s.table col).dropLast))
  rw [reveal_last_length, List.length_dropLast] at hs
  simp only
  omega

lemma numTW_push_waste (s : KlondikeGame) (f : Fin 4) (c : Card)
    (h : 0 < s.wastePile.length) :
    numTW (push_waste_to_foundation s f c) + 1 = numTW s := by
  unfold numTW push_waste_to_foundation
  simp only [List.length_dropLast]
  omega

lemma table_forced_step_cases (acc : KlondikeGame × Bool) (i : Fin 7) :
    table_forced_step acc i = acc ∨
    ∃ top f, (acc.1.table i).getLast? = some top ∧
      table_forced_step acc i = (push_table_to_foundation acc.1 i f top, true) := by
  rcases h : (acc.1.table i).getLast? with _ | top
  · left
    unfold table_forced_step
    rw [h]
  · by_cases hrev : top.revealed = true
    · rcases hf : (List.finRange 4).find? (fun foundationIndex =>
          is_legal_foundation_placement top (acc.1.foundation foundationIndex) &&
          is_safe_foundation_push top acc.1) with _ | f
      · left
        unfold table_forced_step
        rw [h]
        dsimp only
        rw [if_pos hrev, hf]
      · right
        refine ⟨top, f, rfl, ?_⟩
        unfold table_forced_step
        rw [h]
        dsimp only
        rw [if_pos hrev, hf]
    · left
      unfold table_forced_step
      rw [h]
      dsimp only
      rw [if_neg hrev]

lemma foldl_forced_flag_mono (l : List (Fin 7)) (acc : KlondikeGame × Bool)
    (h : acc.2 = true) : (l.foldl table_forced_step acc).2 = true := by
  induction l generalizing acc with
  | nil => exact h
  | cons i rest ih =>
    rw [List.foldl_cons]
    rcases table_forced_step_cases acc i with hc | ⟨top, f, _, hc⟩
    · rw [hc]; exact ih acc h
    · rw [hc]; exact ih _ rfl

lemma foldl_forced_measure (l : List (Fin 7)) (acc : KlondikeGame × Bool) :
    numTW (l.foldl table_forced_step acc).1 ≤ numTW acc.1 ∧
    (acc.2 = false → (l.foldl table_forced_step acc).2 = true →
      numTW (l.foldl table_forced_step acc).1 < numTW acc.1) := by
  induction l generalizing acc with
  | nil => exact ⟨Nat.le_refl _, fun h1 h2 => absurd (h1 ▸ h2) (by simp)⟩
  | cons i rest ih =>
    rw [List.foldl_cons]
    rcases table_forced_step_cases acc i with hc | ⟨top, f, htop, hc⟩
    · rw [hc]; exact ih acc
    · rw [hc]
      have hpos := length_pos_of_getLast?_eq_some htop
      have hdec := numTW_push_table acc.1 i f top hpos
      have hrest := (ih (push_table_to_foundation acc.1 i f top, true)).1
      dsimp only at hrest
      exact ⟨by omega, fun _ _ => by omega⟩

lemma foldl_forced_no_change (l : List (Fin 7)) (acc : KlondikeGame × Bool)
    (h : (l.foldl table_forced_step acc).2 = false) :
    l.foldl table_forced_step acc = acc := by
  induction l generalizing acc with
  | nil => rfl
  | cons i rest ih =>
    rw [List.foldl_cons] at h ⊢
    rcases table_forced_step_cases acc i with hc | ⟨top, f, _, hc⟩
    · rw [hc] at h ⊢; exact ih acc h
    · rw [hc] at h
      have := foldl_forced_flag_mono rest (push_table_to_foundation acc.1 i f top, true) rfl
      rw [h] at this
      exact absurd this (by simp)

lemma forced_pass_main (s : KlondikeGame) :
    forced_pass s = (s, false) ∨
    ((forced_pass s).2 = true ∧ numTW (forced_pass s).1 < numTW s) := by
  unfold forced_pass
  rcases hfold : (List.finRange 7).foldl table_forced_step (s, false) with ⟨s1, c1⟩
  cases c1 with
  | true =>
    dsimp only
    refine Or.inr ⟨rfl, ?_⟩
    have hm := (foldl_forced_measure (List.finRange 7) (s, false)).2 rfl (by rw [hfold])
    rw [hfold] at hm
    exact hm
  | false =>
    have hs1 : s1 = s := by
      have hfix := foldl_forced_no_change (List.finRange 7) (s, false) (by rw [hfold])
      rw [hfold] at hfix
      exact congrArg Prod.fst hfix
    subst hs1
    dsimp only
    rcases hw : (s1.wastePile).getLast? with _ | w
    · simp only [hw]
      exact Or.inl trivial
    · simp only [hw]
      rcases hf : (List.finRange 4).find? (fun foundationIndex =>
          is_legal_foundation_placement w (s1.foundation foundationIndex) &&
          is_safe_foundation_push w s1) with _ | f
      · simp only [hf]
        exact Or.inl trivial
      · simp only [hf]
        have hpos : 0 < s1.wastePile.length := length_pos_of_getLast?_eq_some hw
        have hdec := numTW_push_waste s1 f w hpos
        refine Or.inr ⟨by trivial, by omega⟩

lemma forced_pass_decrease (s : KlondikeGame) (h : (forced_pass s).2 = true) :
    numTW (forced_pass s).1 < numTW s := by
  rcases forced_pass_main s with hc | ⟨_, hlt⟩
  · rw [hc] at h; simp at h
  · exact hlt

lemma forced_pass_no_change (s : KlondikeGame) (h : (forced_pass s).2 = false) :
    (forced_pass s).1 = s := by
  rcases forced_pass_main s with hc | ⟨ht, _⟩
  · rw [hc]
  · rw [ht] at h; simp at h

/-- `apply_forced_moves` (solitaire.c:1664): repeat `forced_pass` until a
pass reports no change; the boolean is `changedAny`. -/
def apply_forced_moves (gameState : KlondikeGame) : KlondikeGame × Bool :=
  if h : (forced_pass gameState).2 = true then
    ((apply_forced_moves (forced_pass gameState).1).1, true)
  else ((forced_pass gameState).1, false)
termination_by numTW gameState
decreasing_by exact forced_pass_decrease gameState h

lemma apply_forced_moves_fix (s : KlondikeGame) :
    forced_pass ((apply_forced_moves s).1) = ((apply_forced_moves s).1, false) := by
  have H : ∀ n, ∀ s : KlondikeGame, numTW s < n →
      forced_pass ((apply_forced_moves s).1) = ((apply_forced_moves s).1, false) := by
    intro n
    induction n with
    | zero => intro s hs; omega
    | succ n ih =>
      intro s hs
      by_cases hp : (forced_pass s).2 = true
      · rw [apply_forced_moves.eq_def, dif_pos hp]
        dsimp only
        have hd := forced_pass_decrease s hp
        exact ih (forced_pass s).1 (by omega)
      · rw [apply_forced_moves.eq_def, dif_neg hp]
        dsimp only
        have h1 := forced_pass_no_change s (by simpa using hp)
        rw [h1]
        have h2 : (forced_pass s).2 = false := by simpa using hp
        rw [Prod.ext_iff]
        exact ⟨h1, h2⟩
  exact H (numTW s + 1) s (Nat.lt_succ_self _)

lemma apply_forced_moves_idem (s : KlondikeGame) :
    apply_forced_moves ((apply_forced_moves s).1) = ((apply_forced_moves s).1, false) := by
  have hfix := apply_forced_moves_fix s
  rw [apply_forced_moves.eq_def, hfix]
  simp

/-- `rotl64_u` (solitaire.c:1267) on 64-bit values modelled as `Nat % 2^64`. -/
def rotl64_u (value64 : Nat) (rotateBits : Nat) : Nat :=
  ((value64 <<< rotateBits) % 2 ^ 64) ||| (value64 >>> (64 - rotateBits))

/-- `encode_rank_to_id` (solitaire.c:1275). -/
def encode_rank_to_id (rankStr : String) : Int :=
  if rankStr = "Ace" then 1
  else if rankStr = "Jack" then 11
  else if rankStr = "Queen" then 12
  else if rankStr = "King" then 13
  else c_atoi rankStr

/-- `encode_suit_to_id` (solitaire.c:1283). -/
def encode_suit_to_id (suitStr : String) : Nat :=
  if suitStr = "Hearts" then 0
  else if suitStr = "Diamonds" then 1
  else if suitStr = "Clubs" then 2
  else if suitStr = "Spades" then 3
  else 0

/-- Two's-complement reading of a C `int` as `uint64_t`. -/
def u64_of_int (i : Int) : Nat := (i % (2 ^ 64 : Int)).toNat

/-- `compute_card_hash` (solitaire.c:1293): pack rank (6 bits), suit
(2 bits) and the revealed flag, then one multiplicative/rotate mix. -/
def compute_card_hash (card : Card) : Nat :=
  let packed := ((encode_rank_to_id card.rank) % 64).toNat |||
    ((encode_suit_to_id card.suit % 4) <<< 6)
  let mixedValue := packed ||| ((if card.revealed then 1 else 0) <<< 8)
  mixedValue ^^^
    rotl64_u ((mixedValue * 0x9E3779B185EBCA87 + 0xC2B2AE3D27D4EB4F) % 2 ^ 64) 23

/-- `compute_state_hash` (solitaire.c:1305): fold foundations (count and
top card), table columns (count and every card), waste and draw sequences,
and the difficulty into one 64-bit digest. -/
def compute_state_hash (gameState : KlondikeGame) : Nat :=
  let h0 : Nat := 0xDEADBEEFCAFEBABE
  let h1 := (List.finRange 4).foldl (fun h foundationIndex =>
    let hc := h ^^^ (((gameState.foundation foundationIndex).length + 0x9E37) % 2 ^ 64)
    match (gameState.foundation foundationIndex).getLast? with
    | none => hc
    | some topFoundationCard =>
      hc ^^^ rotl64_u (compute_card_hash topFoundationCard) (foundationIndex.val + 1)) h0
  let h2 := (List.finRange 7).foldl (fun h tableColumnIndex =>
    let hc := h ^^^ rotl64_u
      (((gameState.table tableColumnIndex).length + 0x12D + tableColumnIndex.val) % 2 ^ 64) 7
    (gameState.table tableColumnIndex).enum.foldl (fun hh p =>
      hh ^^^ rotl64_u (compute_card_hash p.2) ((p.1 + tableColumnIndex.val) % 32)) hc) h1
  let h3 := h2 ^^^ rotl64_u ((gameState.wastePile.length + 0x55) % 2 ^ 64) 13
  let h4 := gameState.wastePile.enum.foldl (fun hh p =>
    hh ^^^ rotl64_u (compute_card_hash p.2) (p.1 % 32)) h3
  let h5 := h4 ^^^ rotl64_u ((gameState.drawPile.length + 0xA3) % 2 ^ 64) 17
  let h6 := gameState.drawPile.enum.foldl (fun hh p =>
    hh ^^^ rotl64_u (compute_card_hash p.2) (p.1 % 32)) h5
  h6 ^^^ ((u64_of_int gameState.difficulty * 0x1000193) % 2 ^ 64)

/-- Model of the C `VisitedEntry` struct (solitaire.h:105-108). -/
structure VisitedEntry where
  key : Nat
  used : Bool
  deriving DecidableEq, Repr

/-- The transposition table `VisitedEntry[VISITED_CAP]`, as a function from
slot index to entry; all accesses are reduced `% VISITED_CAP`. -/
abbrev VisitedTable := Nat → VisitedEntry

/-- The `calloc`-zeroed transposition table of `dfs_solitaire_win`
(solitaire.c:1960). -/
def emptyVisitedTable : VisitedTable := fun _ => ⟨0, false⟩

/-- Probe loop of `visited_table_contains` (solitaire.c:1358-1364);
`remaining` counts the probes left out of the 16-probe cap. -/
def visited_contains_go (visitedTable : VisitedTable) (stateKey startSlot : Nat) :
    Nat → Nat → Bool
  | 0, _ => false
  | remaining+1, probeStep =>
    let tableIndex := (startSlot + probeStep) % VISITED_CAP
    if (visitedTable tableIndex).used = false then false
    else if (visitedTable tableIndex).key = stateKey then true
    else visited_contains_go visitedTable stateKey startSlot remaining (probeStep + 1)

/-- `visited_table_contains` (solitaire.c:1354): linear probe from the
key's home slot, at most 16 probes. -/
def visited_table_contains (visitedTable : VisitedTable) (stateKey : Nat) : Bool :=
  visited_contains_go visitedTable stateKey (stateKey % VISITED_CAP) 16 0

/-- Probe loop of `visited_table_insert` (solitaire.c:1371-1382), bounded
only by the table capacity. -/
def visited_insert_go (visitedTable : VisitedTable) (stateKey startSlot : Nat) :
    Nat → Nat → VisitedTable
  | 0, _ => visitedTable
  | remaining+1, probeStep =>
    let tableIndex := (startSlot + probeStep) % VISITED_CAP
    if (visitedTable tableIndex).used = false then
      Function.update visitedTable tableIndex ⟨stateKey, true⟩
    else if (visitedTable tableIndex).key = stateKey then visitedTable
    else visited_insert_go visitedTable stateKey startSlot remaining (probeStep + 1)

/-- `visited_table_insert` (solitaire.c:1367): linear probe from the home
slot until an empty or matching slot (no 16-probe cap). -/
def visited_table_insert (visitedTable : VisitedTable) (stateKey : Nat) : VisitedTable :=
  visited_insert_go visitedTable stateKey (stateKey % VISITED_CAP) VISITED_CAP 0

lemma visited_table_contains_empty (stateKey : Nat) :
    visited_table_contains emptyVisitedTable stateKey = false := rfl

lemma visited_contains_go_iff (t : VisitedTable) (key start : Nat) :
    ∀ remaining probeStep,
      visited_contains_go t key start remaining probeStep = true ↔
      ∃ i, i < remaining ∧
        (t ((start + probeStep + i) % VISITED_CAP)).used = true ∧
        (t ((start + probeStep + i) % VISITED_CAP)).key = key ∧
        ∀ j, j < i →
          (t ((start + probeStep + j) % VISITED_CAP)).used = true ∧
          (t ((start + probeStep + j) % VISITED_CAP)).key ≠ key := by
  intro remaining
  induction remaining with
  | zero =>
    intro probeStep
    simp [visited_contains_go]
  | succ rem ih =>
    intro probeStep
    unfold visited_contains_go
    dsimp only
    by_cases hused : (t ((start + probeStep) % VISITED_CAP)).used = false
    · rw [if_pos hused]
      constructor
      · intro hfalse; exact absurd hfalse (by simp)
      · rintro ⟨i, hi, hu, hk, hall⟩
        rcases Nat.eq_zero_or_pos i with h0 | hpos
        · subst h0
          rw [Nat.add_zero] at hu
          rw [hu] at hused
          exact absurd hused (by simp)
        · have h1 := (hall 0 hpos).1
          rw [Nat.add_zero] at h1
          rw [h1] at hused
          exact absurd hused (by simp)
    · rw [if_neg hused]
      have husedT : (t ((start + probeStep) % VISITED_CAP)).used = true := by
        revert hused
        cases (t ((start + probeStep) % VISITED_CAP)).used <;> simp
      by_cases hkey : (t ((start + probeStep) % VISITED_CAP)).key = key
      · rw [if_pos hkey]
        constructor
        · intro _
          exact ⟨0, Nat.succ_pos _, by rw [Nat.add_zero]; exact husedT,
            by rw [Nat.add_zero]; exact hkey,
            fun j hj => absurd hj (Nat.not_lt_zero j)⟩
        · intro _; rfl
      · rw [if_neg hkey]
        rw [ih (probeStep + 1)]
        constructor
        · rintro ⟨i, hi, hu, hk, hall⟩
          refine ⟨i + 1, by omega, ?_, ?_, ?_⟩
          · rw [show start + probeStep + (i + 1) = start + (probeStep + 1) + i by omega]
            exact hu
          · rw [show start + probeStep + (i + 1) = start + (probeStep + 1) + i by omega]
            exact hk
          · intro j hj
            cases j with
            | zero => rw [Nat.add_zero]; exact ⟨husedT, hkey⟩
            | succ j' =>
              rw [show start + probeStep + (j' + 1) = start + (probeStep + 1) + j' by omega]
              exact hall j' (by omega)
        · rintro ⟨i, hi, hu, hk, hall⟩
          cases i with
          | zero =>
            rw [Nat.add_zero] at hk
            exact absurd hk hkey
          | succ i' =>
            refine ⟨i', by omega, ?_, ?_, ?_⟩
            · rw [show start + (probeStep + 1) + i' = start + probeStep + (i' + 1) by omega]
              exact hu
            · rw [show start + (probeStep + 1) + i' = start + probeStep + (i' + 1) by omega]
              exact hk
            · intro j hj
              have hj1 := hall (j + 1) (by omega)
              rw [show start + probeStep + (j + 1) = start + (probeStep + 1) + j by omega] at hj1
              exact hj1

lemma visited_insert_go_spec (t : VisitedTable) (key start : Nat) :
    ∀ remaining probeStep k, k < remaining →
      (∀ j, j < k →
        (t ((start + probeStep + j) % VISITED_CAP)).used = true ∧
        (t ((start + probeStep + j) % VISITED_CAP)).key ≠ key) →
      (t ((start + probeStep + k) % VISITED_CAP)).used = false →
      visited_insert_go t key start remaining probeStep
        = Function.update t ((start + probeStep + k) % VISITED_CAP) ⟨key, true⟩ := by
  intro remaining
  induction remaining with
  | zero => intro probeStep k hk; omega
  | succ rem ih =>
    intro probeStep k hk hblocked hfree
    unfold visited_insert_go
    dsimp only
    cases k with
    | zero =>
      rw [Nat.add_zero] at hfree
      rw [if_pos hfree, Nat.add_zero]
    | succ k' =>
      have h0 := hblocked 0 (Nat.succ_pos _)
      rw [Nat.add_zero] at h0
      rw [if_neg (by rw [h0.1]; simp), if_neg h0.2]
      have hres := ih (probeStep + 1) k' (by omega)
        (fun j hj => by
          have hjj := hblocked (j + 1) (by omega)
          rw [show start + probeStep + (j + 1) = start + (probeStep + 1) + j by omega] at hjj
          exact hjj)
        (by
          rw [show start + (probeStep + 1) + k' = start + probeStep + (k' + 1) by omega]
          exact hfree)
      rw [hres]
      rw [show start + (probeStep + 1) + k' = start + probeStep + (k' + 1) by omega]

lemma visited_insert_go_match (t : VisitedTable) (key start : Nat) :
    ∀ remaining probeStep k, k < remaining →
      (∀ j, j < k →
        (t ((start + probeStep + j) % VISITED_CAP)).used = true ∧
        (t ((start + probeStep + j) % VISITED_CAP)).key ≠ key) →
      (t ((start + probeStep + k) % VISITED_CAP)).used = true →
      (t ((start + probeStep + k) % VISITED_CAP)).key = key →
      visited_insert_go t key start remaining probeStep = t := by
  intro remaining
  induction remaining with
  | zero => intro probeStep k hk; omega
  | succ rem ih =>
    intro probeStep k hk hblocked hused hkey
    unfold visited_insert_go
    dsimp only
    cases k with
    | zero =>
      rw [Nat.add_zero] at hused hkey
      rw [if_neg (by rw [hused]; simp), if_pos hkey]
    | succ k' =>
      have h0 := hblocked 0 (Nat.succ_pos _)
      rw [Nat.add_zero] at h0
      rw [if_neg (by rw [h0.1]; simp), if_neg h0.2]
      exact ih (probeStep + 1) k' (by omega)
        (fun j hj => by
          have hjj := hblocked (j + 1) (by omega)
          rw [show start + probeStep + (j + 1) = start + (probeStep + 1) + j by omega] at hjj
          exact hjj)
        (by
          rw [show start + (probeStep + 1) + k' = start + probeStep + (k' + 1) by omega]
          exact hused)
        (by
          rw [show start + (probeStep + 1) + k' = start + probeStep + (k' + 1) by omega]
          exact hkey)

lemma is_goal_state_iff (g : KlondikeGame) :
    is_goal_state g = true ↔ ∀ f : Fin 4, (g.foundation f).length = 13 := by
  unfold is_goal_state
  rw [show (List.finRange 4) = [(0 : Fin 4), 1, 2, 3] from by decide]
  simp only [List.foldl_cons, List.foldl_nil]
  constructor
  · intro h
    split_ifs at h with h0 h1 h2 h3
    all_goals first
      | (intro f; fin_cases f <;> assumption)
      | (exact absurd h (by decide))
  · intro hall
    simp [hall 0, hall 1, hall 2, hall 3]

/-- Board with no cards anywhere, difficulty Normal. -/
def emptyGame : KlondikeGame := ⟨fun _ => [], [], [], fun _ => [], 2, false⟩

/-- The ace of spades, revealed. -/
def aceOfSpades : Card := ⟨"Spades", "Ace", true, false⟩

/-- C6: `is_safe_foundation_push` accepts every card of rank value 1 or 2
regardless of the board; for a card of rank value v > 2 it returns true
exactly when the maximum foundation rank of the opposite color (black for
a red candidate, red for a black one) is at least v − 1. -/
theorem C6_safe_push_characterization (candidateCard : Card) (gameState : KlondikeGame) :
    ((get_card_rank_value candidateCard = 1 ∨ get_card_rank_value candidateCard = 2) →
      is_safe_foundation_push candidateCard gameState = true) ∧
    (2 < get_card_rank_value candidateCard →
      (is_safe_foundation_push candidateCard gameState = true ↔
        (if is_red_suit candidateCard then
          get_card_rank_value candidateCard - 1 ≤ (max_foundation_rank_by_color gameState).2
        else
          get_card_rank_value candidateCard - 1 ≤ (max_foundation_rank_by_color gameState).1))) := by
  constructor
  · intro h
    unfold is_safe_foundation_push
    rw [if_pos (by rcases h with h | h <;> omega)]
  · intro h2
    unfold is_safe_foundation_push
    rw [if_neg (by omega)]
    by_cases hred : is_red_suit candidateCard = true
    · simp [hred]
    · simp [hred]

/-- C6 witness: an Ace is always a safe push, even on the empty board. -/
theorem C6_safe_push_witness :
    (get_card_rank_value aceOfSpades = 1 ∨ get_card_rank_value aceOfSpades = 2) ∧
    is_safe_foundation_push aceOfSpades emptyGame = true :=
  ⟨Or.inl (by decide),
    (C6_safe_push_characterization aceOfSpades emptyGame).1 (Or.inl (by decide))⟩

/-- C7: the transposition-table lookup probes at most 16 slots linearly
from the key's home slot `key % VISITED_CAP`, returning true exactly when
the key is found within those probes with no unused slot before it;
insert probes with no such cap (up to table capacity) until an empty or
matching slot; consequently a key stored 16 or more slots past its home
is invisible to lookup whenever the first 16 slots are occupied by other
keys. -/
theorem C7_visited_table_probe_semantics :
    (∀ (t : VisitedTable) (key : Nat),
      visited_table_contains t key = true ↔
      ∃ i, i < 16 ∧
        (t ((key % VISITED_CAP + i) % VISITED_CAP)).used = true ∧
        (t ((key % VISITED_CAP + i) % VISITED_CAP)).key = key ∧
        ∀ j, j < i →
          (t ((key % VISITED_CAP + j) % VISITED_CAP)).used = true ∧
          (t ((key % VISITED_CAP + j) % VISITED_CAP)).key ≠ key) ∧
    (∀ (t : VisitedTable) (key k : Nat), k < VISITED_CAP →
      (∀ j, j < k →
        (t ((key % VISITED_CAP + j) % VISITED_CAP)).used = true ∧
        (t ((key % VISITED_CAP + j) % VISITED_CAP)).key ≠ key) →
      (t ((key % VISITED_CAP + k) % VISITED_CAP)).used = false →
      visited_table_insert t key
        = Function.update t ((key % VISITED_CAP + k) % VISITED_CAP) ⟨key, true⟩) ∧
    (∀ (t : VisitedTable) (key k : Nat), k < VISITED_CAP →
      (∀ j, j < k →
        (t ((key % VISITED_CAP + j) % VISITED_CAP)).used = true ∧
        (t ((key % VISITED_CAP + j) % VISITED_CAP)).key ≠ key) →
      (t ((key % VISITED_CAP + k) % VISITED_CAP)).used = true →
      (t ((key % VISITED_CAP + k) % VISITED_CAP)).key = key →
      visited_table_insert t key = t) ∧
    (∀ (t : VisitedTable) (key : Nat),
      (∀ j, j < 16 →
        (t ((key % VISITED_CAP + j) % VISITED_CAP)).used = true ∧
        (t ((key % VISITED_CAP + j) % VISITED_CAP)).key ≠ key) →
      visited_table_contains t key = false) := by
  refine ⟨?_, ?_, ?_, ?_⟩
  · intro t key
    have h := visited_contains_go_iff t key (key % VISITED_CAP) 16 0
    rw [Nat.add_zero] at h
    exact h
  · intro t key k hk hblocked hfree
    have h := visited_insert_go_spec t key (key % VISITED_CAP) VISITED_CAP 0 k hk
    rw [Nat.add_zero] at h
    exact h hblocked hfree
  · intro t key k hk hblocked hused hkey
    have h := visited_insert_go_match t key (key % VISITED_CAP) VISITED_CAP 0 k hk
    rw [Nat.add_zero] at h
    exact h hblocked hused hkey
  · intro t key hblocked
    rcases hc : visited_table_contains t key with _ | _
    · rfl
    · exfalso
      have h := visited_contains_go_iff t key (key % VISITED_CAP) 16 0
      rw [Nat.add_zero] at h
      rw [visited_table_contains] at hc
      obtain ⟨i, hi, _, hkeq, _⟩ := h.1 hc
      exact (hblocked i hi).2 hkeq

/-- Concrete table for the C7 witness: slots 0..15 hold foreign keys,
slot 16 holds key 0, everything else unused. -/
def clusterTable : VisitedTable := fun i =>
  if i < 16 then ⟨1, true⟩ else if i = 16 then ⟨0, true⟩ else ⟨0, false⟩

/-- C7 witness: key 0 sits 16 slots past its home slot 0; the 16 nearer
slots are used with other keys, and lookup misses it. -/
theorem C7_visited_table_witness :
    (clusterTable 16).used = true ∧ (clusterTable 16).key = 0 ∧
    visited_table_contains clusterTable 0 = false :=
  ⟨by decide, by decide,
    C7_visited_table_probe_semantics.2.2.2 clusterTable 0 (by decide)⟩

/-- `can_move_sequence_onto_column` (solitaire.c:1398): non-empty run,
destination capacity, and King-to-empty or legal placement on the top. -/
def can_move_sequence_onto_column (s : KlondikeGame) (fromColumnIndex : Fin 7)
    (startRowIndex : Nat) (toColumnIndex : Fin 7) : Bool :=
  let moveCount := (s.table fromColumnIndex).length - startRowIndex
  if moveCount = 0 then false
  else if 52 < (s.table toColumnIndex).length + moveCount then false
  else if (s.table toColumnIndex).length = 0 then
    ((s.table fromColumnIndex).getD startRowIndex defaultCard).rank == "King"
  else
    is_legal_table_placement ((s.table fromColumnIndex).getD startRowIndex defaultCard)
      (((s.table toColumnIndex).getLast?).getD defaultCard)

/-- `apply_move_sequence_between_columns` (solitaire.c:1418): move the run
starting at `startRowIndex` onto the destination column and reveal the new
source top; no-op when the run is empty or the destination lacks room. -/
def apply_move_sequence_between_columns (s : KlondikeGame) (fromColumnIndex : Fin 7)
    (startRowIndex : Nat) (toColumnIndex : Fin 7) : KlondikeGame :=
  let moveCount := (s.table fromColumnIndex).length - startRowIndex
  if moveCount = 0 then s
  else if 52 < (s.table toColumnIndex).length + moveCount then s
  else
    let movedCards := (s.table fromColumnIndex).drop startRowIndex
    let tableAfterTo := Function.update s.table toColumnIndex
      (s.table toColumnIndex ++ movedCards)
    let newFromColumn := reveal_last ((s.table fromColumnIndex).take startRowIndex)
    { s with table := Function.update tableAfterTo fromColumnIndex newFromColumn }

/-- `exists_any_table_to_table_move` (solitaire.c:1515): some revealed run
(validated pairwise) can legally land on another column. -/
def exists_any_table_to_table_move (s : KlondikeGame) : Bool :=
  (List.finRange 7).any (fun fromColumnIndex =>
    let columnCount := (s.table fromColumnIndex).length
    match (s.table fromColumnIndex).findIdx? (fun c => c.revealed) with
    | none => false
    | some firstRevealedRowIndex =>
      (List.range' firstRevealedRowIndex (columnCount - firstRevealedRowIndex)).any
        (fun splitRowIndex =>
          (List.range' splitRowIndex (columnCount - 1 - splitRowIndex)).all (fun checkIndex =>
            is_legal_table_placement ((s.table fromColumnIndex).getD (checkIndex + 1) defaultCard)
              ((s.table fromColumnIndex).getD checkIndex defaultCard)) &&
          (List.finRange 7).any (fun toColumnIndex =>
            if toColumnIndex = fromColumnIndex then false
            else if (s.table toColumnIndex).length = 0 then
              ((s.table fromColumnIndex).getD splitRowIndex defaultCard).rank == "King"
            else
              is_legal_table_placement ((s.table fromColumnIndex).getD splitRowIndex defaultCard)
                (((s.table toColumnIndex).getLast?).getD defaultCard))))

/-- `exists_any_waste_to_table_move` (solitaire.c:1575). -/
def exists_any_waste_to_table_move (s : KlondikeGame) : Bool :=
  match s.wastePile.getLast? with
  | none => false
  | some wasteTopCard =>
    (List.finRange 7).any (fun toColumnIndex =>
      if (s.table toColumnIndex).length = 0 then wasteTopCard.rank == "King"
      else is_legal_table_placement wasteTopCard
        (((s.table toColumnIndex).getLast?).getD defaultCard))

/-- `exists_any_safe_foundation_push` (solitaire.c:1600). -/
def exists_any_safe_foundation_push (s : KlondikeGame) : Bool :=
  ((List.finRange 7).any (fun tableColumnIndex =>
    match (s.table tableColumnIndex).getLast? with
    | none => false
    | some topTableCard =>
      topTableCard.revealed &&
      (List.finRange 4).any (fun foundationIndex =>
        is_legal_foundation_placement topTableCard (s.foundation foundationIndex) &&
        is_safe_foundation_push topTableCard s))) ||
  (match s.wastePile.getLast? with
    | none => false
    | some wasteTopCard =>
      (List.finRange 4).any (fun foundationIndex =>
        is_legal_foundation_placement wasteTopCard (s.foundation foundationIndex) &&
        is_safe_foundation_push wasteTopCard s))

/-- `exists_any_progress_move` (solitaire.c:1645): safe push, table move,
waste-to-table move, a stock to draw, or (Easy only) a waste to recycle. -/
def exists_any_progress_move (s : KlondikeGame) : Bool :=
  exists_any_safe_foundation_push s || exists_any_table_to_table_move s ||
  exists_any_waste_to_table_move s || decide (0 < s.drawPile.length) ||
  (decide (s.difficulty = DIFFICULTY_EASY) && decide (0 < s.wastePile.length))

/-- Move family 1 of `dfs_search_inner` (solitaire.c:1769-1792): safe
pushes of revealed table tops, columns in order, foundations in order. -/
def succs_table_to_foundation (s : KlondikeGame) : List KlondikeGame :=
  (List.finRange 7).flatMap (fun tableColumnIndex =>
    match (s.table tableColumnIndex).getLast? with
    | none => []
    | some topTableCard =>
      if topTableCard.revealed then
        (List.finRange 4).filterMap (fun foundationIndex =>
          if is_legal_foundation_placement topTableCard (s.foundation foundationIndex) &&
              is_safe_foundation_push topTableCard s then
            some (push_table_to_foundation s tableColumnIndex foundationIndex topTableCard)
          else none)
      else [])

/-- Move family 2 of `dfs_search_inner` (solitaire.c:1795-1814): safe
pushes of the waste top. -/
def succs_waste_to_foundation (s : KlondikeGame) : List KlondikeGame :=
  match s.wastePile.getLast? with
  | none => []
  | some wasteTopCard =>
    (List.finRange 4).filterMap (fun foundationIndex =>
      if is_legal_foundation_placement wasteTopCard (s.foundation foundationIndex) &&
          is_safe_foundation_push wasteTopCard s then
        some (push_waste_to_foundation s foundationIndex wasteTopCard)
      else none)

/-- Move family 3 of `dfs_search_inner` (solitaire.c:1817-1865): relocate a
validated revealed run between columns. -/
def succs_table_to_table (s : KlondikeGame) : List KlondikeGame :=
  (List.finRange 7).flatMap (fun fromColumnIndex =>
    let columnCount := (s.table fromColumnIndex).length
    match (s.table fromColumnIndex).findIdx? (fun c => c.revealed) with
    | none => []
    | some firstRevealedRowIndex =>
      (List.range' firstRevealedRowIndex (columnCount - firstRevealedRowIndex)).flatMap
        (fun splitRowIndex =>
          if (List.range' splitRowIndex (columnCount - 1 - splitRowIndex)).all (fun checkIndex =>
              is_legal_table_placement ((s.table fromColumnIndex).getD (checkIndex + 1) defaultCard)
                ((s.table fromColumnIndex).getD checkIndex defaultCard)) then
            (List.finRange 7).filterMap (fun toColumnIndex =>
              if toColumnIndex = fromColumnIndex then none
              else if can_move_sequence_onto_column s fromColumnIndex splitRowIndex toColumnIndex then
                some (apply_move_sequence_between_columns s fromColumnIndex splitRowIndex toColumnIndex)
              else none)
          else []))

/-- Placement of the waste top on a column performed by move family 4
(solitaire.c:1876-1901): append the card and pop the waste. -/
def place_waste_on_column (s : KlondikeGame) (toColumnIndex : Fin 7) (card : Card) :
    KlondikeGame :=
  { s with
    table := Function.update s.table toColumnIndex (s.table toColumnIndex ++ [card]),
    wastePile := s.wastePile.dropLast }

/-- Move family 4 of `dfs_search_inner` (solitaire.c:1868-1905): waste top
to a column; a King moved to an empty column is revealed first. -/
def succs_waste_to_table (s : KlondikeGame) : List KlondikeGame :=
  match s.wastePile.getLast? with
  | none => []
  | some wasteTopCard =>
    (List.finRange 7).filterMap (fun toColumnIndex =>
      if (s.table toColumnIndex).length = 0 then
        if wasteTopCard.rank = "King" then
          some (place_waste_on_column s toColumnIndex { wasteTopCard with revealed := true })
        else none
      else
        if is_legal_table_placement wasteTopCard
            (((s.table toColumnIndex).getLast?).getD defaultCard) then
          some (place_waste_on_column s toColumnIndex wasteTopCard)
        else none)

/-- Draw loop of move family 5 (solitaire.c:1918-1922): pop the stock top
onto the waste, `n` times. -/
def draw_cards : Nat → KlondikeGame → KlondikeGame
  | 0, s => s
  | n+1, s =>
    draw_cards n { s with
      wastePile := s.wastePile ++ [(s.drawPile.getLast?).getD defaultCard],
      drawPile := s.drawPile.dropLast }

/-- Move family 5 of `dfs_search_inner` (solitaire.c:1907-1942): draw
1 or 3 cards (capped by the stock), or recycle the waste in Easy mode. -/
def succs_draw_or_recycle (s : KlondikeGame) : List KlondikeGame :=
  let drawCount : Nat := if s.difficulty = DIFFICULTY_HARD then 3 else 1
  if 0 < s.drawPile.length then
    [draw_cards (min s.drawPile.length drawCount) s]
  else if s.difficulty = DIFFICULTY_EASY ∧ 0 < s.wastePile.length then
    [{ s with drawPile := s.drawPile ++ s.wastePile.reverse, wastePile := [] }]
  else []

/-- Successor states of one node of `dfs_search_inner`, in the exact order
the five move families are enumerated (solitaire.c:1768-1942). -/
def successors (s : KlondikeGame) : List KlondikeGame :=
  succs_table_to_foundation s ++ succs_waste_to_foundation s ++
  succs_table_to_table s ++ succs_waste_to_table s ++ succs_draw_or_recycle s

/-- Call-scoped solver state threaded through the search: the
transposition table and the node counter `g_DfsNodeCount`. -/
structure SearchCtx where
  visited : VisitedTable
  nodeCount : Nat

/-- Depth-first trial of the successor list: recurse into each child in
order, returning at the first success, threading the solver state. -/
def tryChildren (f : KlondikeGame → SearchCtx → Bool × SearchCtx) :
    List KlondikeGame → SearchCtx → Bool × SearchCtx
  | [], ctx => (false, ctx)
  | c :: rest, ctx =>
    match f c ctx with
    | (true, ctx2) => (true, ctx2)
    | (false, ctx2) => tryChildren f rest ctx2

/-- `dfs_search_inner` (solitaire.c:1745) with the current snapshot passed
by value: depth guard, in-place forced-move collapse, goal test, node
budget, transposition check and insert, dead-leaf prune, then the five
successor families in order. -/
def dfs_search_inner (currentState : KlondikeGame) (searchDepth : Nat)
    (ctx : SearchCtx) : Bool × SearchCtx :=
  if hdepth : DFS_MAX_DEPTH ≤ searchDepth then (false, ctx)
  else
    let cur := (apply_forced_moves currentState).1
    if is_goal_state cur then (true, ctx)
    else
      let ctx1 : SearchCtx := ⟨ctx.visited, ctx.nodeCount + 1⟩
      if DFS_NODE_LIMIT < ctx1.nodeCount then (false, ctx1)
      else
        let stateKey := compute_state_hash cur
        if visited_table_contains ctx1.visited stateKey then (false, ctx1)
        else
          let ctx2 : SearchCtx := ⟨visited_table_insert ctx1.visited stateKey, ctx1.nodeCount⟩
          if exists_any_progress_move cur = false then (false, ctx2)
          else
            tryChildren (fun child ctxc => dfs_search_inner child (searchDepth + 1) ctxc)
              (successors cur) ctx2
termination_by DFS_MAX_DEPTH - searchDepth
decreasing_by omega

/-- `dfs_solitaire_win` (solitaire.c:1956) as a boolean function of the
board: initial goal check, then the search from depth 0 with a zeroed
transposition table and node counter. -/
def dfs_solitaire_win (gameState : KlondikeGame) : Bool :=
  if is_goal_state gameState then true
  else (dfs_search_inner gameState 0 ⟨emptyVisitedTable, 0⟩).1

/-- C10: a call of `dfs_search_inner` at depth `DFS_MAX_DEPTH` (512) or
deeper fails immediately, before forced-move collapse and before the goal
test: the result is `(false, ctx)` with the solver state untouched, even
when the position is already won. -/
theorem C10_depth_cap_returns_failure (currentState : KlondikeGame) (searchDepth : Nat)
    (ctx : SearchCtx) (h : DFS_MAX_DEPTH ≤ searchDepth) :
    dfs_search_inner currentState searchDepth ctx = (false, ctx) := by
  rw [dfs_search_inner.eq_def, dif_pos h]

/-- Complete 13-card run of one suit, Ace to King, all revealed. -/
def fullSuit (suitName : String) : List Card :=
  ["Ace", "2", "3", "4", "5", "6", "7", "8", "9", "10", "Jack", "Queen", "King"].map
    (fun r => ⟨suitName, r, true, false⟩)

/-- Fully won board: four complete foundations, everything else empty,
difficulty Normal. -/
def wonGame : KlondikeGame :=
  ⟨fun _ => [], [], [],
    fun f =>
      if f = 0 then fullSuit "Hearts"
      else if f = 1 then fullSuit "Diamonds"
      else if f = 2 then fullSuit "Clubs"
      else fullSuit "Spades",
    2, false⟩

/-- C10 witness: the won board, first reached at depth 512, is reported
as not winnable. -/
theorem C10_depth_cap_witness :
    DFS_MAX_DEPTH ≤ 512 ∧ is_goal_state wonGame = true ∧
    dfs_search_inner wonGame 512 ⟨emptyVisitedTable, 0⟩ = (false, ⟨emptyVisitedTable, 0⟩) :=
  ⟨by decide, by decide,
    C10_depth_cap_returns_failure wonGame 512 ⟨emptyVisitedTable, 0⟩ (by decide)⟩

lemma foldl_fix {α β : Type} (f : β → α → β) (b : β) (h : ∀ a, f b a = b) :
    ∀ l : List α, l.foldl f b = b := by
  intro l
  induction l with
  | nil => rfl
  | cons a rest ih => rw [List.foldl_cons, h a]; exact ih

lemma no_push_table_step (s : KlondikeGame)
    (hpush : ∀ (i : Fin 7) (top : Card) (f : Fin 4), (s.table i).getLast? = some top →
      is_legal_foundation_placement top (s.foundation f) = false) (i : Fin 7) :
    table_forced_step (s, false) i = (s, false) := by
  unfold table_forced_step
  dsimp only
  rcases h : (s.table i).getLast? with _ | top
  · rfl
  · dsimp only
    by_cases hrev : top.revealed = true
    · rw [if_pos hrev]
      have hfind : (List.finRange 4).find? (fun foundationIndex =>
          is_legal_foundation_placement top (s.foundation foundationIndex) &&
          is_safe_foundation_push top s) = none := by
        rw [List.find?_eq_none]
        intro f _
        simp [hpush i top f h]
      rw [hfind]
    · rw [if_neg hrev]

lemma collapse_id_of_no_push (s : KlondikeGame)
    (hwaste : s.wastePile = [])
    (hpush : ∀ (i : Fin 7) (top : Card) (f : Fin 4), (s.table i).getLast? = some top →
      is_legal_foundation_placement top (s.foundation f) = false) :
    apply_forced_moves s = (s, false) := by
  have hpass : forced_pass s = (s, false) := by
    unfold forced_pass
    rw [foldl_fix table_forced_step (s, false) (no_push_table_step s hpush) (List.finRange 7)]
    dsimp only
    rw [hwaste]
    rfl
  rw [apply_forced_moves.eq_def, hpass]
  simp

lemma no_progress_of_dead (s : KlondikeGame)
    (hstock : s.drawPile = [])
    (hwaste : s.wastePile = [])
    (ht2t : exists_any_table_to_table_move s = false)
    (hpush : ∀ (i : Fin 7) (top : Card) (f : Fin 4), (s.table i).getLast? = some top →
      is_legal_foundation_placement top (s.foundation f) = false)
    (hmode : s.difficulty ≠ DIFFICULTY_EASY) :
    exists_any_progress_move s = false := by
  have hsafe : exists_any_safe_foundation_push s = false := by
    unfold exists_any_safe_foundation_push
    rw [hwaste]
    rw [Bool.or_eq_false_iff]
    refine ⟨?_, rfl⟩
    rw [List.any_eq_false]
    intro i _
    rcases h : (s.table i).getLast? with _ | top
    · simp [h]
    · have hinner : (List.finRange 4).any (fun foundationIndex =>
          is_legal_foundation_placement top (s.foundation foundationIndex) &&
          is_safe_foundation_push top s) = false := by
        rw [List.any_eq_false]
        intro f _
        simp [hpush i top f h]
      simp [h, hinner]
  have hw2t : exists_any_waste_to_table_move s = false := by
    unfold exists_any_waste_to_table_move
    rw [hwaste]
    rfl
  unfold exists_any_progress_move
  rw [hsafe, ht2t, hw2t, hstock, hwaste]
  simp [hmode]

lemma solver_reports_false_of_dead (s : KlondikeGame)
    (hstock : s.drawPile = [])
    (hwaste : s.wastePile = [])
    (ht2t : exists_any_table_to_table_move s = false)
    (hpush : ∀ (i : Fin 7) (top : Card) (f : Fin 4), (s.table i).getLast? = some top →
      is_legal_foundation_placement top (s.foundation f) = false)
    (hmode : s.difficulty ≠ DIFFICULTY_EASY)
    (hgoal : is_goal_state s = false) :
    dfs_solitaire_win s = false := by
  have hcoll := collapse_id_of_no_push s hwaste hpush
  have hprog := no_progress_of_dead s hstock hwaste ht2t hpush hmode
  unfold dfs_solitaire_win
  rw [if_neg (by simp [hgoal])]
  rw [dfs_search_inner.eq_def]
  rw [dif_neg (by decide)]
  dsimp only
  rw [hcoll]
  dsimp only
  rw [if_neg (by simp [hgoal])]
  rw [if_neg (by decide)]
  rw [if_neg (by simp [visited_table_contains_empty])]
  rw [if_pos hprog]

/-- C2 (amended): a board with empty stock, empty waste, no legal
column-to-column move and no legal foundation push, in a non-recycling
difficulty mode, **that is not already in the goal state**, is reported
as not winnable.  (The original claim without the goal-state exclusion is
refuted by `C2_dead_position_counterexample`.) -/
theorem C2_dead_position_not_winnable (s : KlondikeGame)
    (hstock : s.drawPile = [])
    (hwaste : s.wastePile = [])
    (ht2t : exists_any_table_to_table_move s = false)
    (hpush : ∀ (i : Fin 7) (top : Card) (f : Fin 4), (s.table i).getLast? = some top →
      is_legal_foundation_placement top (s.foundation f) = false)
    (hmode : s.difficulty ≠ DIFFICULTY_EASY)
    (hgoal : is_goal_state s = false) :
    dfs_solitaire_win s = false :=
  solver_reports_false_of_dead s hstock hwaste ht2t hpush hmode hgoal

/-- C2 counterexample: the fully won board satisfies every premise of the
original claim (empty stock, empty waste, no legal column move, no legal
foundation push, non-recycling mode), yet `dfs_solitaire_win` returns
true from its initial goal check. -/
theorem C2_dead_position_counterexample :
    wonGame.drawPile = [] ∧ wonGame.wastePile = [] ∧
    exists_any_table_to_table_move wonGame = false ∧
    wonGame.table = (fun _ => []) ∧
    wonGame.difficulty ≠ DIFFICULTY_EASY ∧
    dfs_solitaire_win wonGame = true :=
  ⟨rfl, rfl, by decide, rfl, by decide, by decide⟩

/-- Board whose only card is a revealed Queen of Hearts in column 0:
no move of any kind is available at difficulty Normal. -/
def queenBoard : KlondikeGame :=
  ⟨fun i => if i = 0 then [⟨"Hearts", "Queen", true, false⟩] else [],
    [], [], fun _ => [], 2, false⟩

/-- C2 witness: the Queen board is dead and the solver reports false. -/
theorem C2_dead_position_witness :
    queenBoard.drawPile = [] ∧ queenBoard.wastePile = [] ∧
    exists_any_table_to_table_move queenBoard = false ∧
    queenBoard.difficulty ≠ DIFFICULTY_EASY ∧
    is_goal_state queenBoard = false ∧
    dfs_solitaire_win queenBoard = false := by
  have hpush : ∀ (i : Fin 7) (top : Card) (f : Fin 4),
      (queenBoard.table i).getLast? = some top →
      is_legal_foundation_placement top (queenBoard.foundation f) = false := by
    intro i top f h
    fin_cases i
    · have htop : top = ⟨"Hearts", "Queen", true, false⟩ := by
        simpa [queenBoard] using h.symm
      subst htop
      have hfnd : queenBoard.foundation f = [] := rfl
      rw [hfnd]
      decide
    all_goals simp [queenBoard] at h
  exact ⟨rfl, rfl, by decide, by decide, by decide,
    C2_dead_position_not_winnable queenBoard rfl rfl (by decide) hpush (by decide) (by decide)⟩

lemma mem_of_getLast?_card : ∀ {l : List Card} {c : Card}, l.getLast? = some c → c ∈ l := by
  intro l
  induction l with
  | nil => intro c h; simp at h
  | cons a t ih =>
    intro c h
    cases t with
    | nil =>
      simp at h
      simp [h]
    | cons b t2 =>
      rw [List.getLast?_cons_cons] at h
      exact List.mem_cons_of_mem a (ih h)

/-- The thirteen rank strings of a standard deck. -/
def standardRanks : List String :=
  ["Ace", "2", "3", "4", "5", "6", "7", "8", "9", "10", "Jack", "Queen", "King"]

lemma standard_rank_value_bounds (r : String) (h : r ∈ standardRanks) :
    1 ≤ foundation_rank_value r ∧ foundation_rank_value r ≤ 13 := by
  fin_cases h <;> exact ⟨by decide, by decide⟩

lemma collapse_id_of_no_push2 (s : KlondikeGame)
    (hpushT : ∀ (i : Fin 7) (top : Card) (f : Fin 4), (s.table i).getLast? = some top →
      is_legal_foundation_placement top (s.foundation f) = false)
    (hpushW : ∀ (w : Card) (f : Fin 4), s.wastePile.getLast? = some w →
      is_legal_foundation_placement w (s.foundation f) = false) :
    apply_forced_moves s = (s, false) := by
  have hpass : forced_pass s = (s, false) := by
    unfold forced_pass
    rw [foldl_fix table_forced_step (s, false) (no_push_table_step s hpushT) (List.finRange 7)]
    dsimp only
    rcases hw : (s.wastePile).getLast? with _ | w
    · rfl
    · have hfind : (List.finRange 4).find? (fun foundationIndex =>
          is_legal_foundation_placement w (s.foundation foundationIndex) &&
          is_safe_foundation_push w s) = none := by
        rw [List.find?_eq_none]
        intro f _
        simp [hpushW w f hw]
      dsimp only
      rw [hfind]
  rw [apply_forced_moves.eq_def, hpass]
  simp

lemma no_legal_placement_of_goal (s : KlondikeGame) (c : Card)
    (hrank : c.rank ∈ standardRanks)
    (hfnd : ∀ (f : Fin 4) (top : Card), (s.foundation f).getLast? = some top →
      foundation_rank_value top.rank = ((s.foundation f).length : Int))
    (hgoal : is_goal_state s = true) (f : Fin 4) :
    is_legal_foundation_placement c (s.foundation f) = false := by
  have hlen : (s.foundation f).length = 13 := (is_goal_state_iff s).1 hgoal f
  obtain ⟨top, htop⟩ : ∃ top, (s.foundation f).getLast? = some top := by
    rcases hl : (s.foundation f).getLast? with _ | t
    · rw [List.getLast?_eq_none_iff] at hl
      rw [hl] at hlen
      simp at hlen
    · exact ⟨t, rfl⟩
  have hval : foundation_rank_value top.rank = (13 : Int) := by
    have h1 := hfnd f top htop
    omega
  have hc13 := standard_rank_value_bounds c.rank hrank
  unfold is_legal_foundation_placement
  rw [htop]
  dsimp only
  have hne : (foundation_rank_value c.rank == foundation_rank_value top.rank + 1) = false := by
    rw [beq_eq_false_iff_ne]
    rw [hval]
    omega
  rw [hne, Bool.and_false]

/-- C5 (amended): for every board whose table and waste cards bear the
thirteen standard ranks and whose nonempty foundations satisfy the model
invariant that the top card rank value equals the pile count, collapsing
the board with `apply_forced_moves` does not change the solver verdict:
`dfs_solitaire_win s = dfs_solitaire_win (collapse s)`.  (The original
unconditional claim is refuted by `C5_collapse_counterexample`.) -/
theorem C5_collapse_preserves_verdict (s : KlondikeGame)
    (hranksT : ∀ (i : Fin 7), ∀ c ∈ s.table i, c.rank ∈ standardRanks)
    (hranksW : ∀ c ∈ s.wastePile, c.rank ∈ standardRanks)
    (hfnd : ∀ (f : Fin 4) (top : Card), (s.foundation f).getLast? = some top →
      foundation_rank_value top.rank = ((s.foundation f).length : Int)) :
    dfs_solitaire_win s = dfs_solitaire_win ((apply_forced_moves s).1) := by
  by_cases hgoal : is_goal_state s = true
  · have hcoll : apply_forced_moves s = (s, false) := by
      refine collapse_id_of_no_push2 s ?_ ?_
      · intro i top f htop
        exact no_legal_placement_of_goal s top
          (hranksT i top (mem_of_getLast?_card htop)) hfnd hgoal f
      · intro w f hw
        exact no_legal_placement_of_goal s w
          (hranksW w (mem_of_getLast?_card hw)) hfnd hgoal f
    rw [hcoll]
  · by_cases hgoal2 : is_goal_state ((apply_forced_moves s).1) = true
    · have hR : dfs_solitaire_win ((apply_forced_moves s).1) = true := by
        unfold dfs_solitaire_win
        rw [if_pos hgoal2]
      have hL : dfs_solitaire_win s = true := by
        unfold dfs_solitaire_win
        rw [if_neg hgoal]
        rw [dfs_search_inner.eq_def, dif_neg (by decide)]
        dsimp only
        rw [if_pos hgoal2]
      rw [hL, hR]
    · unfold dfs_solitaire_win
      rw [if_neg hgoal, if_neg hgoal2]
      rw [dfs_search_inner.eq_def]
      rw [dfs_search_inner.eq_def]
      rw [dif_neg (by decide)]
      dsimp only
      rw [apply_forced_moves_idem]
      rw [dif_neg (by decide)]

/-- Six of hearts, revealed. -/
def sixOfHearts : Card := ⟨"Hearts", "6", true, false⟩

/-- A 13-card pile whose top is the five of hearts (the pile violates the
foundation invariant: its count is 13 but its top rank value is 5). -/
def fiveHeartsFoundation : List Card :=
  List.replicate 12 ⟨"Hearts", "2", true, false⟩ ++ [⟨"Hearts", "5", true, false⟩]

/-- Degenerate board refuting the unconditional C5: all four foundation
counts are 13 (so the board is a goal state), but foundation 0 has a five
of hearts on top, and a six of hearts sits revealed on column 0. -/
def fiveTrapBoard : KlondikeGame :=
  ⟨fun i => if i = 0 then [sixOfHearts] else [],
    [], [],
    fun f =>
      if f = 0 then fiveHeartsFoundation
      else if f = 1 then fullSuit "Spades"
      else if f = 2 then fullSuit "Clubs"
      else fullSuit "Diamonds",
    2, false⟩

/-- The collapse of `fiveTrapBoard`: the six of hearts has been pushed
onto foundation 0, whose count is now 14, so the goal test fails. -/
def fiveTrapCollapsed : KlondikeGame :=
  ⟨fun _ => [],
    [], [],
    fun f =>
      if f = 0 then fiveHeartsFoundation ++ [sixOfHearts]
      else if f = 1 then fullSuit "Spades"
      else if f = 2 then fullSuit "Clubs"
      else fullSuit "Diamonds",
    2, false⟩

lemma fiveTrap_collapse_eq :
    apply_forced_moves fiveTrapBoard = (fiveTrapCollapsed, true) := by
  have hp1 : forced_pass fiveTrapBoard = (fiveTrapCollapsed, true) := by decide
  have hp2 : forced_pass fiveTrapCollapsed = (fiveTrapCollapsed, false) := by decide
  have h2 : apply_forced_moves fiveTrapCollapsed = (fiveTrapCollapsed, false) := by
    rw [apply_forced_moves.eq_def, hp2]
    simp
  rw [apply_forced_moves.eq_def, hp1]
  rw [dif_pos (show ((fiveTrapCollapsed, true) : KlondikeGame × Bool).2 = true from rfl)]
  dsimp only
  rw [h2]

/-- C5 counterexample: on `fiveTrapBoard` the solver answers true (initial
goal check), but on its forced-move collapse it answers false, so
`is_winnable (B) = is_winnable (collapse B)` fails for arbitrary boards. -/
theorem C5_collapse_counterexample :
    dfs_solitaire_win fiveTrapBoard = true ∧
    dfs_solitaire_win ((apply_forced_moves fiveTrapBoard).1) = false := by
  constructor
  · unfold dfs_solitaire_win
    rw [if_pos (by decide)]
  · rw [fiveTrap_collapse_eq]
    dsimp only
    refine solver_reports_false_of_dead fiveTrapCollapsed rfl rfl (by decide) ?_
      (by decide) (by decide)
    intro i top f h
    simp [fiveTrapCollapsed] at h

/-- C5 witness: the Queen board satisfies the validity hypotheses and the
amended claim applies to it. -/
theorem C5_collapse_witness :
    dfs_solitaire_win queenBoard = dfs_solitaire_win ((apply_forced_moves queenBoard).1) := by
  refine C5_collapse_preserves_verdict queenBoard ?_ ?_ ?_
  · intro i c hc
    have ht : queenBoard.table i = if i = 0 then [⟨"Hearts", "Queen", true, false⟩] else [] := rfl
    rw [ht] at hc
    by_cases h0 : i = 0
    · rw [if_pos h0] at hc
      have hcq := List.mem_singleton.mp hc
      rw [hcq]
      decide
    · rw [if_neg h0] at hc
      simp at hc
  · intro c hc
    simp [queenBoard] at hc
  · intro f top h
    have hfnd : queenBoard.foundation f = [] := rfl
    rw [hfnd] at h
    simp at h

/-- Memory touched by one solver invocation, made explicit for the frame
and purity claims: the caller's board, the heap snapshot array
`statesArray` (malloc of `dfs_solitaire_win`, its initial content
arbitrary), the transposition table and the global `g_DfsNodeCount`. -/
structure SolverMem where
  callerBoard : KlondikeGame
  states : Nat → KlondikeGame
  visited : VisitedTable
  nodeCount : Nat

/-- Assignment `statesArray[slotIndex] = g`. -/
def writeState (m : SolverMem) (slotIndex : Nat) (g : KlondikeGame) : SolverMem :=
  { m with states := fun j => if j = slotIndex then g else m.states j }

/-- Candidate loop of the memory-level search: write each child into
`statesArray[writeIndex]` and recurse, stopping at the first success. -/
def tryChildren_mem (f : SolverMem → Bool × SolverMem) (writeIndex : Nat) :
    List KlondikeGame → SolverMem → Bool × SolverMem
  | [], m => (false, m)
  | c :: rest, m =>
    match f (writeState m writeIndex c) with
    | (true, m2) => (true, m2)
    | (false, m2) => tryChildren_mem f writeIndex rest m2

/-- `dfs_search_inner` (solitaire.c:1745) at the memory level: the current
node lives in `statesArray[searchDepth]`, is collapsed in place, and
children are written into `statesArray[searchDepth + 1]` before each
recursive call. -/
def dfs_search_inner_mem (m : SolverMem) (searchDepth : Nat) : Bool × SolverMem :=
  if hdepth : DFS_MAX_DEPTH ≤ searchDepth then (false, m)
  else
    let cur := (apply_forced_moves (m.states searchDepth)).1
    let m1 := writeState m searchDepth cur
    if is_goal_state cur then (true, m1)
    else
      let m2 := { m1 with nodeCount := m1.nodeCount + 1 }
      if DFS_NODE_LIMIT < m2.nodeCount then (false, m2)
      else
        let stateKey := compute_state_hash cur
        if visited_table_contains m2.visited stateKey then (false, m2)
        else
          let m3 := { m2 with visited := visited_table_insert m2.visited stateKey }
          if exists_any_progress_move cur = false then (false, m3)
          else
            tryChildren_mem (fun mm => dfs_search_inner_mem mm (searchDepth + 1))
              (searchDepth + 1) (successors cur) m3
termination_by DFS_MAX_DEPTH - searchDepth
decreasing_by omega

/-- `dfs_solitaire_win` (solitaire.c:1956) at the memory level: goal check
on the caller's board, fresh zeroed transposition table, heap snapshot
array of arbitrary initial content, `statesArray[0] = *gameState`, node
counter reset, then the recursive search. -/
def dfs_solitaire_win_mem (gameState : KlondikeGame) (initialStates : Nat → KlondikeGame)
    (previousNodeCount : Nat) : Bool × SolverMem :=
  let m0 : SolverMem := ⟨gameState, initialStates, emptyVisitedTable, previousNodeCount⟩
  if is_goal_state gameState then (true, m0)
  else
    let m1 := writeState m0 0 m0.callerBoard
    let m2 := { m1 with nodeCount := 0 }
    dfs_search_inner_mem m2 0

lemma writeState_callerBoard (m : SolverMem) (i : Nat) (g : KlondikeGame) :
    (writeState m i g).callerBoard = m.callerBoard := rfl

lemma writeState_visited (m : SolverMem) (i : Nat) (g : KlondikeGame) :
    (writeState m i g).visited = m.visited := rfl

lemma writeState_nodeCount (m : SolverMem) (i : Nat) (g : KlondikeGame) :
    (writeState m i g).nodeCount = m.nodeCount := rfl

lemma tryChildren_mem_caller (f : SolverMem → Bool × SolverMem) (w : Nat)
    (hf : ∀ m, ((f m).2).callerBoard = m.callerBoard) :
    ∀ (cs : List KlondikeGame) (m : SolverMem),
      ((tryChildren_mem f w cs m).2).callerBoard = m.callerBoard := by
  intro cs
  induction cs with
  | nil => intro m; rfl
  | cons c rest ih =>
    intro m
    unfold tryChildren_mem
    have hc := hf (writeState m w c)
    rcases hr : f (writeState m w c) with ⟨b, m2⟩
    rw [hr] at hc
    rw [writeState_callerBoard] at hc
    cases b
    · dsimp only
      rw [ih m2, hc]
    · dsimp only
      rw [hc]

lemma dfs_mem_caller (n : Nat) :
    ∀ (searchDepth : Nat) (m : SolverMem), DFS_MAX_DEPTH - searchDepth ≤ n →
      ((dfs_search_inner_mem m searchDepth).2).callerBoard = m.callerBoard := by
  induction n with
  | zero =>
    intro d m hd
    rw [dfs_search_inner_mem.eq_def, dif_pos (by omega)]
  | succ n ih =>
    intro d m hd
    by_cases hdep : DFS_MAX_DEPTH ≤ d
    · rw [dfs_search_inner_mem.eq_def, dif_pos hdep]
    · rw [dfs_search_inner_mem.eq_def, dif_neg hdep]
      dsimp only
      split_ifs with h1 h2 h3 h4
      · rfl
      · rfl
      · rfl
      · rfl
      · exact tryChildren_mem_caller _ _ (fun mm => ih (d + 1) mm (by omega)) _ _

/-- C4: one full solver invocation never mutates the caller's board.  The
input board is only read (goal check, copy into snapshot slot 0); every
write of the algorithm targets the snapshot array, the transposition
table or the node counter, so after the call the caller's board is
unchanged, whatever junk the snapshot array started with. -/
theorem C4_caller_board_not_mutated (gameState : KlondikeGame)
    (initialStates : Nat → KlondikeGame) (previousNodeCount : Nat) :
    ((dfs_solitaire_win_mem gameState initialStates previousNodeCount).2).callerBoard
      = gameState := by
  unfold dfs_solitaire_win_mem
  dsimp only
  split_ifs with h
  · rfl
  · exact (dfs_mem_caller DFS_MAX_DEPTH 0 _ (by omega)).trans rfl

lemma tryChildren_mem_congr (f1 f2 : SolverMem → Bool × SolverMem) (w : Nat)
    (hf : ∀ mm1 mm2 : SolverMem, mm1.states w = mm2.states w → mm1.visited = mm2.visited →
      mm1.nodeCount = mm2.nodeCount →
      (f1 mm1).1 = (f2 mm2).1 ∧ ((f1 mm1).2).visited = ((f2 mm2).2).visited ∧
      ((f1 mm1).2).nodeCount = ((f2 mm2).2).nodeCount) :
    ∀ (cs : List KlondikeGame) (m1 m2 : SolverMem),
      m1.visited = m2.visited → m1.nodeCount = m2.nodeCount →
      (tryChildren_mem f1 w cs m1).1 = (tryChildren_mem f2 w cs m2).1 ∧
      ((tryChildren_mem f1 w cs m1).2).visited = ((tryChildren_mem f2 w cs m2).2).visited ∧
      ((tryChildren_mem f1 w cs m1).2).nodeCount = ((tryChildren_mem f2 w cs m2).2).nodeCount := by
  intro cs
  induction cs with
  | nil => intro m1 m2 hv hc; exact ⟨rfl, hv, hc⟩
  | cons c rest ih =>
    intro m1 m2 hv hc
    unfold tryChildren_mem
    have h := hf (writeState m1 w c) (writeState m2 w c)
      (by simp [writeState]) (by simp [writeState, hv]) (by simp [writeState, hc])
    rcases hr1 : f1 (writeState m1 w c) with ⟨b1, mm1⟩
    rcases hr2 : f2 (writeState m2 w c) with ⟨b2, mm2⟩
    rw [hr1, hr2] at h
    obtain ⟨hb, hvv, hcc⟩ := h
    dsimp only at hb hvv hcc
    subst hb
    cases b1
    · dsimp only
      exact ih mm1 mm2 hvv hcc
    · dsimp only
      exact ⟨rfl, hvv, hcc⟩

lemma dfs_mem_congr (n : Nat) :
    ∀ (searchDepth : Nat) (m1 m2 : SolverMem), DFS_MAX_DEPTH - searchDepth ≤ n →
      m1.states searchDepth = m2.states searchDepth →
      m1.visited = m2.visited → m1.nodeCount = m2.nodeCount →
      (dfs_search_inner_mem m1 searchDepth).1 = (dfs_search_inner_mem m2 searchDepth).1 ∧
      ((dfs_search_inner_mem m1 searchDepth).2).visited
        = ((dfs_search_inner_mem m2 searchDepth).2).visited ∧
      ((dfs_search_inner_mem m1 searchDepth).2).nodeCount
        = ((dfs_search_inner_mem m2 searchDepth).2).nodeCount := by
  induction n with
  | zero =>
    intro d m1 m2 hd hs hv hc
    rw [dfs_search_inner_mem.eq_def, dfs_search_inner_mem.eq_def,
      dif_pos (show DFS_MAX_DEPTH ≤ d by omega), dif_pos (show DFS_MAX_DEPTH ≤ d by omega)]
    exact ⟨rfl, hv, hc⟩
  | succ n ih =>
    intro d m1 m2 hd hs hv hc
    by_cases hdep : DFS_MAX_DEPTH ≤ d
    · rw [dfs_search_inner_mem.eq_def, dfs_search_inner_mem.eq_def,
        dif_pos hdep, dif_pos hdep]
      exact ⟨rfl, hv, hc⟩
    · rw [dfs_search_inner_mem.eq_def, dfs_search_inner_mem.eq_def,
        dif_neg hdep, dif_neg hdep]
      dsimp only
      rw [hs]
      simp only [writeState_visited, writeState_nodeCount]
      rw [hv, hc]
      split_ifs with h1 h2 h3 h4
      · exact ⟨rfl, by simp [writeState, hv], by simp [writeState, hc]⟩
      · exact ⟨rfl, by simp [writeState, hv], by simp [writeState, hc]⟩
      · exact ⟨rfl, by simp [writeState, hv], by simp [writeState, hc]⟩
      · exact ⟨rfl, by simp [writeState, hv], by simp [writeState, hc]⟩
      · refine tryChildren_mem_congr _ _ (d + 1)
          (fun mm1 mm2 hs2 hv2 hc2 => ih (d + 1) mm1 mm2 (by omega) hs2 hv2 hc2)
          (successors _) _ _ (by simp [writeState, hv]) (by simp [writeState, hc])

/-- C3: the solver result is a pure, deterministic function of the input
board: two invocations on the same board return the same answer, whatever
the prior value of the global node counter (the entry point resets it to
zero) and whatever junk the freshly allocated snapshot array contains
(every slot is written before it is read). -/
theorem C3_solver_is_pure (gameState : KlondikeGame)
    (initialStates1 initialStates2 : Nat → KlondikeGame)
    (previousNodeCount1 previousNodeCount2 : Nat) :
    (dfs_solitaire_win_mem gameState initialStates1 previousNodeCount1).1
      = (dfs_solitaire_win_mem gameState initialStates2 previousNodeCount2).1 := by
  unfold dfs_solitaire_win_mem
  dsimp only
  split_ifs with h
  · rfl
  · refine (dfs_mem_congr DFS_MAX_DEPTH 0 _ _ (by omega) ?_ ?_ ?_).1
    · simp [writeState]
    · rfl
    · rfl

/-- C1: on a board whose four foundations each hold 13 cards, the entry
point returns true from its initial goal check, with the whole solver
memory untouched: the snapshot array keeps its initial content (nothing
was copied or collapsed), the transposition table stays zeroed, and the
node counter keeps its previous value (no node was expanded). -/
theorem C1_goal_board_short_circuits (gameState : KlondikeGame)
    (initialStates : Nat → KlondikeGame) (previousNodeCount : Nat)
    (hgoal : ∀ f : Fin 4, (gameState.foundation f).length = 13) :
    dfs_solitaire_win_mem gameState initialStates previousNodeCount
      = (true, ⟨gameState, initialStates, emptyVisitedTable, previousNodeCount⟩) := by
  unfold dfs_solitaire_win_mem
  rw [if_pos ((is_goal_state_iff gameState).2 hgoal)]

/-- C1 witness: the fully won board short-circuits with node counter 7
left as is. -/
theorem C1_goal_board_witness :
    dfs_solitaire_win_mem wonGame (fun _ => emptyGame) 7
      = (true, ⟨wonGame, fun _ => emptyGame, emptyVisitedTable, 7⟩) :=
  C1_goal_board_short_circuits wonGame (fun _ => emptyGame) 7 (by decide)

/-- Identity of a card for the conservation claim: suit and rank. -/
def proj_card (c : Card) : String × String := (c.suit, c.rank)

/-- Multiset of card identities carried by one pile. -/
def projM (l : List Card) : Multiset (String × String) :=
  ((l.map proj_card : List (String × String)) : Multiset (String × String))

/-- Multiset of card identities across all regions of a board: the seven
table columns, the stock, the waste, and the four foundations. -/
def allCards (s : KlondikeGame) : Multiset (String × String) :=
  (∑ i : Fin 7, projM (s.table i)) + projM s.drawPile + projM s.wastePile +
  (∑ f : Fin 4, projM (s.foundation f))

lemma getLast?_decomp {l : List Card} {c : Card} (h : l.getLast? = some c) :
    l = l.dropLast ++ [c] := by
  have hne : l ≠ [] := by intro he; rw [he] at h; simp at h
  have h2 := List.getLast?_eq_getLast l hne
  rw [h] at h2
  have h3 : c = l.getLast hne := by injection h2
  rw [h3]
  exact (List.dropLast_concat_getLast hne).symm

lemma projM_append (l1 l2 : List Card) : projM (l1 ++ l2) = projM l1 + projM l2 := by
  unfold projM
  rw [List.map_append]
  exact Multiset.coe_add _ _

lemma projM_reveal_last (l : List Card) : projM (reveal_last l) = projM l := by
  unfold reveal_last
  rcases h : l.getLast? with _ | c
  · rfl
  · have hd := getLast?_decomp h
    conv_rhs => rw [hd]
    rw [projM_append, projM_append]
    rfl

lemma projM_reverse (l : List Card) : projM l.reverse = projM l := by
  unfold projM
  rw [List.map_reverse]
  exact Multiset.coe_reverse _

lemma sum_F_update_over {n : ℕ} {M : Type} [AddCommMonoid M] (g : Fin n → List Card)
    (t : Finset (Fin n)) (j : Fin n) (hj : j ∈ t) (v : List Card) (F : List Card → M) :
    (∑ i in t, F (Function.update g j v i)) = F v + ∑ i in t \ {j}, F (g i) := by
  have h1 : ∀ i, F (Function.update g j v i)
      = Function.update (fun k => F (g k)) j (F v) i :=
    fun i => Function.apply_update (fun _ l => F l) g j v i
  rw [Finset.sum_congr rfl (fun i _ => h1 i)]
  exact Finset.sum_update_of_mem hj _ _

lemma sum_F_decomp_over {n : ℕ} {M : Type} [AddCommMonoid M] (g : Fin n → List Card)
    (t : Finset (Fin n)) (j : Fin n) (hj : j ∈ t) (F : List Card → M) :
    (∑ i in t, F (g i)) = F (g j) + ∑ i in t \ {j}, F (g i) := by
  rw [← Finset.erase_eq]
  exact (Finset.add_sum_erase t (fun i => F (g i)) hj).symm

lemma sum_projM_update {n : ℕ} (g : Fin n → List Card) (t : Finset (Fin n)) (j : Fin n)
    (hj : j ∈ t) (v : List Card) :
    (∑ i in t, projM (Function.update g j v i)) = projM v + ∑ i in t \ {j}, projM (g i) :=
  sum_F_update_over g t j hj v projM

lemma sum_projM_decomp {n : ℕ} (g : Fin n → List Card) (t : Finset (Fin n)) (j : Fin n)
    (hj : j ∈ t) :
    (∑ i in t, projM (g i)) = projM (g j) + ∑ i in t \ {j}, projM (g i) :=
  sum_F_decomp_over g t j hj projM

lemma allCards_push_table (s : KlondikeGame) (col : Fin 7) (f : Fin 4) (top : Card)
    (htop : (s.table col).getLast? = some top) :
    allCards (push_table_to_foundation s col f top) = allCards s := by
  unfold allCards push_table_to_foundation
  dsimp only
  rw [sum_projM_update s.table Finset.univ col (Finset.mem_univ col) _,
      sum_projM_update s.foundation Finset.univ f (Finset.mem_univ f) _,
      sum_projM_decomp s.table Finset.univ col (Finset.mem_univ col),
      sum_projM_decomp s.foundation Finset.univ f (Finset.mem_univ f)]
  rw [projM_reveal_last]
  have hl : projM (s.table col) = projM ((s.table col).dropLast) + projM [top] := by
    conv_lhs => rw [getLast?_decomp htop]
    exact projM_append _ _
  rw [hl, projM_append]
  abel

lemma allCards_push_waste (s : KlondikeGame) (f : Fin 4) (w : Card)
    (hw : s.wastePile.getLast? = some w) :
    allCards (push_waste_to_foundation s f w) = allCards s := by
  unfold allCards push_waste_to_foundation
  dsimp only
  rw [sum_projM_update s.foundation Finset.univ f (Finset.mem_univ f) _,
      sum_projM_decomp s.foundation Finset.univ f (Finset.mem_univ f)]
  have hl : projM s.wastePile = projM (s.wastePile.dropLast) + projM [w] := by
    conv_lhs => rw [getLast?_decomp hw]
    exact projM_append _ _
  rw [hl, projM_append]
  abel

lemma allCards_place_waste (s : KlondikeGame) (toC : Fin 7) (card w : Card)
    (hw : s.wastePile.getLast? = some w) (hp : proj_card card = proj_card w) :
    allCards (place_waste_on_column s toC card) = allCards s := by
  unfold allCards place_waste_on_column
  dsimp only
  rw [sum_projM_update s.table Finset.univ toC (Finset.mem_univ toC) _,
      sum_projM_decomp s.table Finset.univ toC (Finset.mem_univ toC)]
  have hl : projM s.wastePile = projM (s.wastePile.dropLast) + projM [w] := by
    conv_lhs => rw [getLast?_decomp hw]
    exact projM_append _ _
  have hc : projM [card] = projM [w] := by
    unfold projM
    rw [List.map_singleton, List.map_singleton, hp]
  rw [hl, projM_append, hc]
  abel

lemma allCards_move_seq (s : KlondikeGame) (fromC : Fin 7) (start : Nat) (toC : Fin 7)
    (hne : toC ≠ fromC) :
    allCards (apply_move_sequence_between_columns s fromC start toC) = allCards s := by
  unfold apply_move_sequence_between_columns
  dsimp only
  split_ifs with h1 h2
  · rfl
  · rfl
  · unfold allCards
    dsimp only
    rw [sum_projM_update (Function.update s.table toC
        (s.table toC ++ (s.table fromC).drop start)) Finset.univ fromC
        (Finset.mem_univ fromC) _]
    have htoC : toC ∈ Finset.univ \ ({fromC} : Finset (Fin 7)) := by simp [hne]
    rw [sum_projM_update s.table (Finset.univ \ {fromC}) toC htoC _]
    rw [sum_projM_decomp s.table Finset.univ fromC (Finset.mem_univ fromC)]
    rw [sum_projM_decomp s.table (Finset.univ \ {fromC}) toC htoC]
    rw [projM_reveal_last, projM_append]
    have hsplit : projM (s.table fromC)
        = projM ((s.table fromC).take start) + projM ((s.table fromC).drop start) := by
      rw [← projM_append, List.take_append_drop]
    rw [hsplit]
    abel

lemma allCards_draw_cards : ∀ (n : Nat) (s : KlondikeGame), n ≤ s.drawPile.length →
    allCards (draw_cards n s) = allCards s := by
  intro n
  induction n with
  | zero => intro s _; rfl
  | succ n ih =>
    intro s hn
    have hlen : 0 < s.drawPile.length := by omega
    obtain ⟨c, hc⟩ : ∃ c, s.drawPile.getLast? = some c := by
      rcases hl : (s.drawPile).getLast? with _ | c
      · rw [List.getLast?_eq_none_iff] at hl
        rw [hl] at hlen
        simp at hlen
      · exact ⟨c, rfl⟩
    unfold draw_cards
    rw [ih _ (by simp [List.length_dropLast]; omega)]
    unfold allCards
    dsimp only
    rw [hc]
    simp only [Option.getD_some]
    rw [projM_append]
    have hdecomp : projM s.drawPile = projM (s.drawPile.dropLast) + projM [c] := by
      conv_lhs => rw [getLast?_decomp hc]
      exact projM_append _ _
    rw [hdecomp]
    abel

lemma mem_succs_t2f {s t : KlondikeGame} (h : t ∈ succs_table_to_foundation s) :
    ∃ (col : Fin 7) (f : Fin 4) (top : Card), (s.table col).getLast? = some top ∧
      t = push_table_to_foundation s col f top := by
  unfold succs_table_to_foundation at h
  rw [List.mem_flatMap] at h
  obtain ⟨col, _, h⟩ := h
  split at h
  · simp at h
  · rename_i top htop
    split at h
    · rw [List.mem_filterMap] at h
      obtain ⟨f, _, hf⟩ := h
      split at hf
      · exact ⟨col, f, top, htop, (Option.some_inj.mp hf).symm⟩
      · exact absurd hf (by simp)
    · simp at h

lemma mem_succs_w2f {s t : KlondikeGame} (h : t ∈ succs_waste_to_foundation s) :
    ∃ (f : Fin 4) (w : Card), s.wastePile.getLast? = some w ∧
      t = push_waste_to_foundation s f w := by
  unfold succs_waste_to_foundation at h
  split at h
  · simp at h
  · rename_i w hw
    rw [List.mem_filterMap] at h
    obtain ⟨f, _, hf⟩ := h
    split at hf
    · exact ⟨f, w, hw, (Option.some_inj.mp hf).symm⟩
    · exact absurd hf (by simp)

lemma mem_succs_t2t {s t : KlondikeGame} (h : t ∈ succs_table_to_table s) :
    ∃ (fromC toC : Fin 7) (start : Nat), toC ≠ fromC ∧
      t = apply_move_sequence_between_columns s fromC start toC := by
  unfold succs_table_to_table at h
  rw [List.mem_flatMap] at h
  obtain ⟨fromC, _, h⟩ := h
  dsimp only at h
  split at h
  · simp at h
  · rename_i first hfr
    rw [List.mem_flatMap] at h
    obtain ⟨start, _, h⟩ := h
    split at h
    · rw [List.mem_filterMap] at h
      obtain ⟨toC, _, hto⟩ := h
      split at hto
      · exact absurd hto (by simp)
      · rename_i hnef
        split at hto
        · exact ⟨fromC, toC, start, hnef, (Option.some_inj.mp hto).symm⟩
        · exact absurd hto (by simp)
    · simp at h

lemma mem_succs_w2t {s t : KlondikeGame} (h : t ∈ succs_waste_to_table s) :
    ∃ (toC : Fin 7) (w card : Card), s.wastePile.getLast? = some w ∧
      proj_card card = proj_card w ∧ t = place_waste_on_column s toC card := by
  unfold succs_waste_to_table at h
  split at h
  · simp at h
  · rename_i w hw
    rw [List.mem_filterMap] at h
    obtain ⟨toC, _, hto⟩ := h
    split at hto
    · split at hto
      · exact ⟨toC, w, { w with revealed := true }, hw, rfl, (Option.some_inj.mp hto).symm⟩
      · exact absurd hto (by simp)
    · split at hto
      · exact ⟨toC, w, w, hw, rfl, (Option.some_inj.mp hto).symm⟩
      · exact absurd hto (by simp)

lemma mem_succs_draw {s t : KlondikeGame} (h : t ∈ succs_draw_or_recycle s) :
    (0 < s.drawPile.length ∧
      t = draw_cards (min s.drawPile.length
        (if s.difficulty = DIFFICULTY_HARD then 3 else 1)) s) ∨
    t = { s with drawPile := s.drawPile ++ s.wastePile.reverse, wastePile := [] } := by
  unfold succs_draw_or_recycle at h
  dsimp only at h
  split at h
  · rename_i hlen
    rw [List.mem_singleton] at h
    exact Or.inl ⟨hlen, h⟩
  · split at h
    · rw [List.mem_singleton] at h
      exact Or.inr h
    · simp at h

lemma allCards_forced_pass (s : KlondikeGame) :
    allCards ((forced_pass s).1) = allCards s := by
  have hfold : ∀ (l : List (Fin 7)) (acc : KlondikeGame × Bool),
      allCards ((l.foldl table_forced_step acc).1) = allCards acc.1 := by
    intro l
    induction l with
    | nil => intro acc; rfl
    | cons i rest ih =>
      intro acc
      rw [List.foldl_cons]
      rcases table_forced_step_cases acc i with hc | ⟨top, f, htop, hc⟩
      · rw [hc]; exact ih acc
      · rw [hc, ih _]
        dsimp only
        exact allCards_push_table acc.1 i f top htop
  unfold forced_pass
  rcases hf : (List.finRange 7).foldl table_forced_step (s, false) with ⟨s1, c1⟩
  have hs1 : allCards s1 = allCards s := by
    have hh := hfold (List.finRange 7) (s, false)
    rw [hf] at hh
    exact hh
  cases c1 with
  | true => exact hs1
  | false =>
    dsimp only
    split
    · exact hs1
    · rename_i w hw
      split
      · rename_i f hfind
        dsimp only
        exact (allCards_push_waste s1 f w hw).trans hs1
      · exact hs1

lemma allCards_collapse (s : KlondikeGame) :
    allCards ((apply_forced_moves s).1) = allCards s := by
  have H : ∀ n, ∀ s : KlondikeGame, numTW s < n →
      allCards ((apply_forced_moves s).1) = allCards s := by
    intro n
    induction n with
    | zero => intro s hs; omega
    | succ n ih =>
      intro s hs
      by_cases hp : (forced_pass s).2 = true
      · rw [apply_forced_moves.eq_def, dif_pos hp]
        dsimp only
        have hd := forced_pass_decrease s hp
        rw [ih (forced_pass s).1 (by omega)]
        exact allCards_forced_pass s
      · rw [apply_forced_moves.eq_def, dif_neg hp]
        dsimp only
        exact allCards_forced_pass s
  exact H (numTW s + 1) s (Nat.lt_succ_self _)

/-- C8: the multiset of card identities (suit and rank) spread over the
seven columns, the stock, the waste and the four foundations is invariant
under forced-move collapse and under each of the five successor moves of
the search: moves relocate cards, never create, destroy or duplicate
them. -/
theorem C8_card_multiset_invariant (s : KlondikeGame) :
    allCards ((apply_forced_moves s).1) = allCards s ∧
    ∀ t ∈ successors s, allCards t = allCards s := by
  refine ⟨allCards_collapse s, ?_⟩
  intro t ht
  unfold successors at ht
  simp only [List.mem_append] at ht
  rcases ht with (((h1 | h2) | h3) | h4) | h5
  · obtain ⟨col, f, top, htop, rfl⟩ := mem_succs_t2f h1
    exact allCards_push_table s col f top htop
  · obtain ⟨f, w, hw, rfl⟩ := mem_succs_w2f h2
    exact allCards_push_waste s f w hw
  · obtain ⟨fromC, toC, start, hne, rfl⟩ := mem_succs_t2t h3
    exact allCards_move_seq s fromC start toC hne
  · obtain ⟨toC, w, card, hw, hp, rfl⟩ := mem_succs_w2t h4
    exact allCards_place_waste s toC card w hw hp
  · rcases mem_succs_draw h5 with ⟨hlen, rfl⟩ | rfl
    · exact allCards_draw_cards _ s (Nat.min_le_left _ _)
    · unfold allCards
      dsimp only
      rw [projM_append, projM_reverse]
      have h0 : projM ([] : List Card) = 0 := rfl
      rw [h0]
      abel

/-- Board whose single card is a face-down ace of hearts in the stock. -/
def hiddenStockBoard : KlondikeGame :=
  ⟨fun _ => [], [⟨"Hearts", "Ace", false, false⟩], [], fun _ => [], 2, false⟩

/-- The board obtained from `hiddenStockBoard` by the solver's draw move:
the same face-down ace now sits in the waste. -/
def hiddenDrawChild : KlondikeGame :=
  ⟨fun _ => [], [], [⟨"Hearts", "Ace", false, false⟩], fun _ => [], 2, false⟩

/-- C8 witness: the draw successor of `hiddenStockBoard` carries the same
card multiset. -/
theorem C8_card_multiset_witness :
    hiddenDrawChild ∈ successors hiddenStockBoard ∧
    allCards hiddenDrawChild = allCards hiddenStockBoard :=
  ⟨by decide, (C8_card_multiset_invariant hiddenStockBoard).2 hiddenDrawChild (by decide)⟩

lemma table_forced_step_piles (acc : KlondikeGame × Bool) (i : Fin 7) :
    ((table_forced_step acc i).1).drawPile = acc.1.drawPile ∧
    ((table_forced_step acc i).1).wastePile = acc.1.wastePile := by
  rcases table_forced_step_cases acc i with hc | ⟨top, f, _, hc⟩ <;> rw [hc] <;> exact ⟨rfl, rfl⟩

lemma foldl_forced_piles (l : List (Fin 7)) (acc : KlondikeGame × Bool) :
    ((l.foldl table_forced_step acc).1).drawPile = acc.1.drawPile ∧
    ((l.foldl table_forced_step acc).1).wastePile = acc.1.wastePile := by
  induction l generalizing acc with
  | nil => exact ⟨rfl, rfl⟩
  | cons i rest ih =>
    rw [List.foldl_cons]
    have h1 := table_forced_step_piles acc i
    have h2 := ih (table_forced_step acc i)
    exact ⟨h2.1.trans h1.1, h2.2.trans h1.2⟩

lemma revealed_inv_pass (s : KlondikeGame)
    (hstock : ∀ c ∈ s.drawPile, c.revealed = true)
    (hwaste : ∀ c ∈ s.wastePile, c.revealed = true) :
    (∀ c ∈ ((forced_pass s).1).drawPile, c.revealed = true) ∧
    (∀ c ∈ ((forced_pass s).1).wastePile, c.revealed = true) := by
  unfold forced_pass
  rcases hf : (List.finRange 7).foldl table_forced_step (s, false) with ⟨s1, c1⟩
  have hpiles := foldl_forced_piles (List.finRange 7) (s, false)
  rw [hf] at hpiles
  obtain ⟨hd1, hw1⟩ := hpiles
  dsimp only at hd1 hw1
  cases c1 with
  | true =>
    exact ⟨fun c hc => hstock c (hd1 ▸ hc), fun c hc => hwaste c (hw1 ▸ hc)⟩
  | false =>
    dsimp only
    split
    · exact ⟨fun c hc => hstock c (hd1 ▸ hc), fun c hc => hwaste c (hw1 ▸ hc)⟩
    · rename_i w hw
      split
      · rename_i f hfind
        dsimp only
        constructor
        · intro c hc
          exact hstock c (hd1 ▸ hc)
        · intro c hc
          have hmem : c ∈ s1.wastePile := (List.dropLast_sublist _).subset hc
          exact hwaste c (hw1 ▸ hmem)
      · exact ⟨fun c hc => hstock c (hd1 ▸ hc), fun c hc => hwaste c (hw1 ▸ hc)⟩

lemma revealed_inv_collapse (s : KlondikeGame)
    (hstock : ∀ c ∈ s.drawPile, c.revealed = true)
    (hwaste : ∀ c ∈ s.wastePile, c.revealed = true) :
    (∀ c ∈ ((apply_forced_moves s).1).drawPile, c.revealed = true) ∧
    (∀ c ∈ ((apply_forced_moves s).1).wastePile, c.revealed = true) := by
  have H : ∀ n, ∀ s : KlondikeGame, numTW s < n →
      (∀ c ∈ s.drawPile, c.revealed = true) → (∀ c ∈ s.wastePile, c.revealed = true) →
      (∀ c ∈ ((apply_forced_moves s).1).drawPile, c.revealed = true) ∧
      (∀ c ∈ ((apply_forced_moves s).1).wastePile, c.revealed = true) := by
    intro n
    induction n with
    | zero => intro s hs; omega
    | succ n ih =>
      intro s hs h1 h2
      have hpass := revealed_inv_pass s h1 h2
      by_cases hp : (forced_pass s).2 = true
      · rw [apply_forced_moves.eq_def, dif_pos hp]
        dsimp only
        have hd := forced_pass_decrease s hp
        exact ih (forced_pass s).1 (by omega) hpass.1 hpass.2
      · rw [apply_forced_moves.eq_def, dif_neg hp]
        dsimp only
        exact hpass
  exact H (numTW s + 1) s (Nat.lt_succ_self _) hstock hwaste

lemma move_seq_piles (s : KlondikeGame) (fromC : Fin 7) (start : Nat) (toC : Fin 7) :
    (apply_move_sequence_between_columns s fromC start toC).drawPile = s.drawPile ∧
    (apply_move_sequence_between_columns s fromC start toC).wastePile = s.wastePile := by
  unfold apply_move_sequence_between_columns
  dsimp only
  split_ifs <;> exact ⟨rfl, rfl⟩

lemma revealed_inv_draw_cards : ∀ (n : Nat) (s : KlondikeGame), n ≤ s.drawPile.length →
    (∀ c ∈ s.drawPile, c.revealed = true) → (∀ c ∈ s.wastePile, c.revealed = true) →
    (∀ c ∈ (draw_cards n s).drawPile, c.revealed = true) ∧
    (∀ c ∈ (draw_cards n s).wastePile, c.revealed = true) := by
  intro n
  induction n with
  | zero => intro s _ h1 h2; exact ⟨h1, h2⟩
  | succ n ih =>
    intro s hn h1 h2
    have hlen : 0 < s.drawPile.length := by omega
    obtain ⟨c0, hc0⟩ : ∃ c0, s.drawPile.getLast? = some c0 := by
      rcases hl : (s.drawPile).getLast? with _ | c0
      · rw [List.getLast?_eq_none_iff] at hl
        rw [hl] at hlen
        simp at hlen
      · exact ⟨c0, rfl⟩
    unfold draw_cards
    refine ih _ (by simp [List.length_dropLast]; omega) ?_ ?_
    · intro c hc
      exact h1 c ((List.dropLast_sublist _).subset hc)
    · intro c hc
      dsimp only at hc
      rw [hc0] at hc
      simp only [Option.getD_some] at hc
      rcases List.mem_append.mp hc with hcw | hcc
      · exact h2 c hcw
      · have hcq : c = c0 := List.mem_singleton.mp hcc
        rw [hcq]
        exact h1 c0 (mem_of_getLast?_card hc0)

/-- C9 (amended): provided every stock card and every waste card of a
board is revealed — which the dealer establishes, setting the flag on all
stock cards — forced-move collapse and every solver successor preserve
the property, so every state arising in the search keeps all waste (and
stock) cards revealed.  The unconditional claim is refuted by
`C9_waste_revealed_counterexample`: the draw move itself copies the flag
and does not set it. -/
theorem C9_waste_revealed_preserved (s : KlondikeGame)
    (hstock : ∀ c ∈ s.drawPile, c.revealed = true)
    (hwaste : ∀ c ∈ s.wastePile, c.revealed = true) :
    ((∀ c ∈ ((apply_forced_moves s).1).drawPile, c.revealed = true) ∧
      (∀ c ∈ ((apply_forced_moves s).1).wastePile, c.revealed = true)) ∧
    (∀ t ∈ successors s,
      (∀ c ∈ t.drawPile, c.revealed = true) ∧ (∀ c ∈ t.wastePile, c.revealed = true)) := by
  refine ⟨revealed_inv_collapse s hstock hwaste, ?_⟩
  intro t ht
  unfold successors at ht
  simp only [List.mem_append] at ht
  rcases ht with (((h1 | h2) | h3) | h4) | h5
  · obtain ⟨col, f, top, htop, rfl⟩ := mem_succs_t2f h1
    exact ⟨hstock, hwaste⟩
  · obtain ⟨f, w, hw, rfl⟩ := mem_succs_w2f h2
    refine ⟨hstock, ?_⟩
    intro c hc
    exact hwaste c ((List.dropLast_sublist _).subset hc)
  · obtain ⟨fromC, toC, start, hne, rfl⟩ := mem_succs_t2t h3
    have hp := move_seq_piles s fromC start toC
    exact ⟨fun c hc => hstock c (hp.1 ▸ hc), fun c hc => hwaste c (hp.2 ▸ hc)⟩
  · obtain ⟨toC, w, card, hw, hp, rfl⟩ := mem_succs_w2t h4
    refine ⟨hstock, ?_⟩
    intro c hc
    exact hwaste c ((List.dropLast_sublist _).subset hc)
  · rcases mem_succs_draw h5 with ⟨hlen, rfl⟩ | rfl
    · exact revealed_inv_draw_cards _ s (Nat.min_le_left _ _) hstock hwaste
    · constructor
      · intro c hc
        rcases List.mem_append.mp hc with hcd | hcr
        · exact hstock c hcd
        · exact hwaste c (List.mem_reverse.mp hcr)
      · intro c hc
        simp at hc

/-- C9 counterexample: the solver's draw move leaves a face-down stock
card face-down in the waste; the move copies the revealed flag rather
than setting it. -/
theorem C9_waste_revealed_counterexample :
    hiddenDrawChild ∈ successors hiddenStockBoard ∧
    hiddenDrawChild.wastePile = [⟨"Hearts", "Ace", false, false⟩] ∧
    (⟨"Hearts", "Ace", false, false⟩ : Card).revealed = false :=
  ⟨by decide, rfl, rfl⟩

/-- Board whose single card is a face-up ace of hearts in the stock. -/
def revealedStockBoard : KlondikeGame :=
  ⟨fun _ => [], [⟨"Hearts", "Ace", true, false⟩], [], fun _ => [], 2, false⟩

/-- The draw successor of `revealedStockBoard`. -/
def revealedDrawChild : KlondikeGame :=
  ⟨fun _ => [], [], [⟨"Hearts", "Ace", true, false⟩], fun _ => [], 2, false⟩

/-- C9 witness: from a board with revealed stock, the draw successor has
all waste cards revealed. -/
theorem C9_waste_revealed_witness :
    revealedDrawChild ∈ successors revealedStockBoard ∧
    revealedDrawChild.wastePile.all (fun c => c.revealed) = true := by
  refine ⟨by decide, ?_⟩
  rw [List.all_eq_true]
  intro c hc
  exact ((C9_waste_revealed_preserved revealedStockBoard (by decide) (by decide)).2
    revealedDrawChild (by decide)).2 c hc

lemma writeState_self (m : SolverMem) (i : Nat) (g : KlondikeGame) :
    (writeState m i g).states i = g := by
  simp [writeState]

lemma tryChildren_mem_agree (fm : SolverMem → Bool × SolverMem)
    (fv : KlondikeGame → SearchCtx → Bool × SearchCtx) (w : Nat)
    (hf : ∀ (mm : SolverMem) (ctx : SearchCtx), mm.visited = ctx.visited →
      mm.nodeCount = ctx.nodeCount →
      (fm mm).1 = (fv (mm.states w) ctx).1 ∧
      ((fm mm).2).visited = ((fv (mm.states w) ctx).2).visited ∧
      ((fm mm).2).nodeCount = ((fv (mm.states w) ctx).2).nodeCount) :
    ∀ (cs : List KlondikeGame) (m : SolverMem) (ctx : SearchCtx),
      m.visited = ctx.visited → m.nodeCount = ctx.nodeCount →
      (tryChildren_mem fm w cs m).1 = (tryChildren fv cs ctx).1 ∧
      ((tryChildren_mem fm w cs m).2).visited = ((tryChildren fv cs ctx).2).visited ∧
      ((tryChildren_mem fm w cs m).2).nodeCount = ((tryChildren fv cs ctx).2).nodeCount := by
  intro cs
  induction cs with
  | nil => intro m ctx hv hc; exact ⟨rfl, hv, hc⟩
  | cons c rest ih =>
    intro m ctx hv hc
    unfold tryChildren_mem tryChildren
    have h := hf (writeState m w c) ctx (by simp [writeState, hv]) (by simp [writeState, hc])
    rw [writeState_self] at h
    rcases hr1 : fm (writeState m w c) with ⟨b1, mm1⟩
    rcases hr2 : fv c ctx with ⟨b2, ctx2⟩
    rw [hr1, hr2] at h
    obtain ⟨hb, hvv, hcc⟩ := h
    dsimp only at hb hvv hcc
    subst hb
    cases b1
    · dsimp only
      exact ih mm1 ctx2 hvv hcc
    · dsimp only
      exact ⟨rfl, hvv, hcc⟩

lemma dfs_mem_agrees_with_value (n : Nat) :
    ∀ (d : Nat) (m : SolverMem) (ctx : SearchCtx), DFS_MAX_DEPTH - d ≤ n →
      m.visited = ctx.visited → m.nodeCount = ctx.nodeCount →
      (dfs_search_inner_mem m d).1 = (dfs_search_inner (m.states d) d ctx).1 ∧
      ((dfs_search_inner_mem m d).2).visited = ((dfs_search_inner (m.states d) d ctx).2).visited ∧
      ((dfs_search_inner_mem m d).2).nodeCount
        = ((dfs_search_inner (m.states d) d ctx).2).nodeCount := by
  induction n with
  | zero =>
    intro d m ctx hd hv hc
    rw [dfs_search_inner_mem.eq_def, dfs_search_inner.eq_def,
      dif_pos (show DFS_MAX_DEPTH ≤ d by omega), dif_pos (show DFS_MAX_DEPTH ≤ d by omega)]
    exact ⟨rfl, hv, hc⟩
  | succ n ih =>
    intro d m ctx hd hv hc
    by_cases hdep : DFS_MAX_DEPTH ≤ d
    · rw [dfs_search_inner_mem.eq_def, dfs_search_inner.eq_def, dif_pos hdep, dif_pos hdep]
      exact ⟨rfl, hv, hc⟩
    · rw [dfs_search_inner_mem.eq_def, dfs_search_inner.eq_def, dif_neg hdep, dif_neg hdep]
      dsimp only
      simp only [writeState_visited, writeState_nodeCount]
      rw [hv, hc]
      split_ifs with h1 h2 h3 h4
      · exact ⟨rfl, by simp [writeState, hv], by simp [writeState, hc]⟩
      · exact ⟨rfl, by simp [writeState, hv], by simp [writeState, hc]⟩
      · exact ⟨rfl, by simp [writeState, hv], by simp [writeState, hc]⟩
      · exact ⟨rfl, by simp [writeState, hv], by simp [writeState, hc]⟩
      · refine tryChildren_mem_agree _ _ (d + 1)
          (fun mm ctx2 hv2 hc2 => ih (d + 1) mm ctx2 (by omega) hv2 hc2)
          (successors _) _ _ (by simp [writeState, hv]) (by simp [writeState, hc])

lemma solver_win_mem_agrees (gameState : KlondikeGame)
    (initialStates : Nat → KlondikeGame) (previousNodeCount : Nat) :
    (dfs_solitaire_win_mem gameState initialStates previousNodeCount).1
      = dfs_solitaire_win gameState := by
  unfold dfs_solitaire_win_mem dfs_solitaire_win
  dsimp only
  split_ifs with h
  · rfl
  · refine ((dfs_mem_agrees_with_value DFS_MAX_DEPTH 0 _ ⟨emptyVisitedTable, 0⟩
      (by omega) ?_ ?_).1).trans ?_
    · rfl
    · rfl
    · rfl
